import Mathlib

/-!
Surface renderer (`surface.go`): embedding and verified properties.

The Go program samples one of three elevation functions on a 100 x 100 grid,
projects every cell isometrically and writes one SVG polygon per cell.

Modelling conventions.

* `float64` is `F64 K`: the numbers of an ordered field `K` computed exactly
  (rounding, overflow and the sign of zero are not modelled) together with the
  three IEEE special values NaN, +Inf and -Inf, whose arithmetic and
  comparisons follow IEEE 754 as Go implements it.
* The functions of package `math` that are not field operations (`Sin`, `Cos`,
  `Exp`, `Hypot`, the constant `Pi`) and the `%g` verb of package `fmt` are the
  fields of a record `MathOps K`; every Go function that reaches one of them
  takes the record as its first argument.  Theorems name the facts about these
  functions they rely on as hypotheses.
* The package-level variable `funcName` is an explicit argument.
* Go `int` is `Int`; the `http.ResponseWriter` is the list of the strings
  written to it, oldest first.
-/

namespace Surface

/-! ## float64 -/

/-- A `float64`: a number of `K`, or one of the IEEE special values. -/
inductive F64 (K : Type) where
  | nan : F64 K
  | pinf : F64 K
  | ninf : F64 K
  | fin (v : K) : F64 K
  deriving DecidableEq, Repr

namespace F64

variable {K : Type} [LinearOrderedField K]

/-- Go `math.IsNaN`. -/
def isNaN : F64 K → Bool
  | nan => true
  | _ => false

/-- Go `math.IsInf(v, 0)`. -/
def isInf : F64 K → Bool
  | pinf => true
  | ninf => true
  | _ => false

/-- Unary minus. -/
def neg : F64 K → F64 K
  | nan => nan
  | pinf => ninf
  | ninf => pinf
  | fin v => fin (-v)

/-- Go `a + b` on `float64`. -/
def add : F64 K → F64 K → F64 K
  | fin a, fin b => fin (a + b)
  | nan, _ => nan
  | _, nan => nan
  | pinf, ninf => nan
  | ninf, pinf => nan
  | pinf, _ => pinf
  | _, pinf => pinf
  | ninf, _ => ninf
  | _, ninf => ninf

/-- Go `a - b` on `float64`. -/
def sub (a b : F64 K) : F64 K := add a (neg b)

/-- The infinity with the sign of `v`, NaN when `v` is zero (`Inf * 0`). -/
def infTimes (v : K) : F64 K :=
  if v = 0 then nan else if 0 < v then pinf else ninf

/-- Go `a * b` on `float64`. -/
def mul : F64 K → F64 K → F64 K
  | fin a, fin b => fin (a * b)
  | nan, _ => nan
  | _, nan => nan
  | pinf, pinf => pinf
  | pinf, ninf => ninf
  | ninf, pinf => ninf
  | ninf, ninf => pinf
  | pinf, fin b => infTimes b
  | fin a, pinf => infTimes a
  | ninf, fin b => neg (infTimes b)
  | fin a, ninf => neg (infTimes a)

/-- Go `a / b` on `float64`: a zero divisor gives NaN for `0 / 0` and an
infinity otherwise (the divisor zero is taken as `+0`). -/
def div : F64 K → F64 K → F64 K
  | fin a, fin b => if b = 0 then infTimes a else fin (a / b)
  | nan, _ => nan
  | _, nan => nan
  | fin _, pinf => fin 0
  | fin _, ninf => fin 0
  | pinf, fin b => if 0 ≤ b then pinf else ninf
  | ninf, fin b => if 0 ≤ b then ninf else pinf
  | pinf, pinf => nan
  | pinf, ninf => nan
  | ninf, pinf => nan
  | ninf, ninf => nan

/-- Go `a < b` on `float64`: false as soon as one side is NaN. -/
def lt : F64 K → F64 K → Bool
  | fin a, fin b => decide (a < b)
  | nan, _ => false
  | _, nan => false
  | _, ninf => false
  | pinf, _ => false
  | ninf, _ => true
  | _, pinf => true

/-- Go `a > b` on `float64`. -/
def gt (a b : F64 K) : Bool := lt b a

/-- Go `a <= b` on `float64`: false as soon as one side is NaN. -/
def le : F64 K → F64 K → Bool
  | fin a, fin b => decide (a ≤ b)
  | nan, _ => false
  | _, nan => false
  | ninf, _ => true
  | _, pinf => true
  | _, ninf => false
  | pinf, _ => false

/-- Go `math.Abs`. -/
def abs : F64 K → F64 K
  | nan => nan
  | pinf => pinf
  | ninf => pinf
  | fin v => fin |v|

/-- The smallest `int64`, what the conversion `int(v)` gives on amd64 when `v`
is NaN or infinite. -/
def minInt64 : Int := -9223372036854775808

/-- Go `int(v)` for a `float64`: the fraction is discarded (truncation towards
zero). -/
def toInt [FloorRing K] : F64 K → Int
  | fin v => if 0 ≤ v then ⌊v⌋ else ⌈v⌉
  | _ => minInt64

end F64

/-! ## Packages `math` and `fmt` -/

/-- The functions of package `math` on finite arguments, the constant
`math.Pi`, and the text `fmt` prints for a `float64` under `%g`. -/
structure MathOps (K : Type) where
  /-- `math.Sin` on a finite argument. -/
  sin : K → K
  /-- `math.Cos` on a finite argument. -/
  cos : K → K
  /-- `math.Exp` on a finite argument. -/
  exp : K → K
  /-- `math.Hypot` on finite arguments. -/
  hypot : K → K → K
  /-- `math.Pi`. -/
  pi : K
  /-- The verb `%g` of package `fmt`. -/
  fmtG : F64 K → String

namespace MathOps

variable {K : Type} [LinearOrderedField K]

/-- Go `math.Sin`: NaN at NaN and at the infinities. -/
def Sin (M : MathOps K) : F64 K → F64 K
  | F64.fin v => F64.fin (M.sin v)
  | _ => F64.nan

/-- Go `math.Cos`: NaN at NaN and at the infinities. -/
def Cos (M : MathOps K) : F64 K → F64 K
  | F64.fin v => F64.fin (M.cos v)
  | _ => F64.nan

/-- Go `math.Exp`: `Exp(+Inf) = +Inf`, `Exp(-Inf) = 0`, `Exp(NaN) = NaN`. -/
def Exp (M : MathOps K) : F64 K → F64 K
  | F64.fin v => F64.fin (M.exp v)
  | F64.pinf => F64.pinf
  | F64.ninf => F64.fin 0
  | F64.nan => F64.nan

/-- Go `math.Hypot`: `+Inf` as soon as one argument is infinite, otherwise NaN
as soon as one is NaN. -/
def Hypot (M : MathOps K) : F64 K → F64 K → F64 K
  | F64.fin a, F64.fin b => F64.fin (M.hypot a b)
  | F64.pinf, _ => F64.pinf
  | F64.ninf, _ => F64.pinf
  | _, F64.pinf => F64.pinf
  | _, F64.ninf => F64.pinf
  | F64.nan, _ => F64.nan
  | _, F64.nan => F64.nan

end MathOps

/-! ## Control flow and formatting -/

/-- The loop `for i := 0; i < n; i++ { s = body(i, s) }`. -/
def forLoop {σ : Type} (n : Nat) (body : Int → σ → σ) (s : σ) : σ :=
  (List.range n).foldl (fun acc i => body (i : Int) acc) s

/-- The verb `%d` for an `int`. -/
def fmtD (n : Int) : String := toString n

/-- The verb `%02x` for an `int`: lower-case hexadecimal digits, a leading
minus sign for a negative number, zeros after the sign up to a width of two. -/
def fmt02x (n : Int) : String :=
  let digits := String.mk (Nat.toDigits 16 n.natAbs)
  if n < 0 then "-" ++ digits
  else if digits.length < 2 then "0" ++ digits
  else digits

/-! ## The program -/

section Program

variable {K : Type} [LinearOrderedField K]

/-- Canvas width in pixels. -/
def width : Int := 600

/-- Canvas height in pixels. -/
def height : Int := 320

/-- Number of grid cells. -/
def cells : Nat := 100

/-- Axis ranges (`-xyrange..+xyrange`). -/
def xyrange (K : Type) [LinearOrderedField K] : K := 30.0

/-- Pixels per x or y unit: the constant expression `width / 2 / xyrange`,
whose first quotient is a quotient of integer constants. -/
def xyscale (K : Type) [LinearOrderedField K] : K := ((width / 2 : Int) : K) / xyrange K

/-- Pixels per z unit: the constant expression `height * 0.4`. -/
def zscale (K : Type) [LinearOrderedField K] : K := (height : K) * 0.4

/-- Angle of the x and y axes: `math.Pi / 6`. -/
def angle (M : MathOps K) : K := M.pi / 6

/-- The variable `sin30 = math.Sin(angle)`. -/
def sin30 (M : MathOps K) : F64 K := M.Sin (F64.fin (angle M))

/-- The variable `cos30 = math.Cos(angle)`. -/
def cos30 (M : MathOps K) : F64 K := M.Cos (F64.fin (angle M))

/-- Go `safeValue`. -/
def safeValue (v : F64 K) : F64 K :=
  if v.isNaN || v.isInf then F64.fin 0 else v

/-- Go `f`. -/
def f (M : MathOps K) (x y : F64 K) : F64 K :=
  let r := M.Hypot x y
  safeValue (F64.div (M.Sin r) r)

/-- Go `eggbox`. -/
def eggbox (M : MathOps K) (x y : F64 K) : F64 K :=
  F64.mul (F64.fin 0.2) (F64.add (M.Cos x) (M.Cos y))

/-- Go `saddle`. -/
def saddle (x y : F64 K) : F64 K :=
  let a : F64 K := F64.fin 25.0
  let b : F64 K := F64.fin 17.0
  F64.sub (F64.div (F64.mul y y) (F64.mul a a)) (F64.div (F64.mul x x) (F64.mul b b))

/-- Go `getXyz`, reading the selector `funcName`.  The `switch` has no default
case: under any other selector `z` keeps its zero value. -/
def getXyz (M : MathOps K) (funcName : String) (i j : Int) : F64 K × F64 K × F64 K :=
  let x := F64.mul (F64.fin (xyrange K))
    (F64.sub (F64.div (F64.fin (i : K)) (F64.fin (cells : K))) (F64.fin 0.5))
  let y := F64.mul (F64.fin (xyrange K))
    (F64.sub (F64.div (F64.fin (j : K)) (F64.fin (cells : K))) (F64.fin 0.5))
  let z : F64 K :=
    if funcName = "f" then f M x y
    else if funcName = "eggbox" then eggbox M x y
    else if funcName = "saddle" then saddle x y
    else F64.fin 0
  (x, y, z)

/-- The two `if` statements that `min_max` and `color` both run on the
elevation `z` of a corner, on the pair `(min, max)`. -/
def update (z : F64 K) (s : F64 K × F64 K) : F64 K × F64 K :=
  let lo := if s.1.isNaN || F64.lt z s.1 then z else s.1
  let hi := if s.2.isNaN || F64.gt z s.2 then z else s.2
  (lo, hi)

/-- The loops over `xoff` and `yoff` of `min_max` and `color`: the four
corners of cell `(i, j)`. -/
def cellLoop (M : MathOps K) (funcName : String) (i j : Int)
    (s : F64 K × F64 K) : F64 K × F64 K :=
  forLoop 2 (fun xoff s1 =>
    forLoop 2 (fun yoff s2 =>
      update (getXyz M funcName (i + xoff) (j + yoff)).2.2 s2) s1) s

/-- Go `min_max`. -/
def min_max (M : MathOps K) (funcName : String) : F64 K × F64 K :=
  forLoop cells (fun i s1 =>
    forLoop cells (fun j s2 => cellLoop M funcName i j s2) s1) (F64.nan, F64.nan)

/-- The value of `red` (of `blue`) that `color` converts to an integer, from
the cell extremum `c` and the global extremum `g`. -/
def intensity (M : MathOps K) (c g : F64 K) : F64 K :=
  let v := F64.mul (F64.div (M.Exp (F64.abs c)) (M.Exp (F64.abs g))) (F64.fin 255)
  if F64.gt v (F64.fin 255) then F64.fin 255 else v

/-- The pair `(min, max)` of `color` after its two loops. -/
def cellExtrema (M : MathOps K) (funcName : String) (i j : Int) : F64 K × F64 K :=
  cellLoop M funcName i j (F64.nan, F64.nan)

/-- Go `color`. -/
def color [FloorRing K] (M : MathOps K) (funcName : String) (i j : Int) (zmin zmax : F64 K) : String :=
  let s := cellExtrema M funcName i j
  if F64.gt (F64.abs s.2) (F64.abs s.1) then
    "#" ++ fmt02x (F64.toInt (intensity M s.2 zmax)) ++ "0000"
  else
    "#0000" ++ fmt02x (F64.toInt (intensity M s.1 zmin))

/-- Go `corner`. -/
def corner (M : MathOps K) (funcName : String) (i j : Int) : F64 K × F64 K :=
  let p := getXyz M funcName i j
  let sx := F64.add (F64.fin ((width / 2 : Int) : K))
    (F64.mul (F64.mul (F64.sub p.1 p.2.1) (cos30 M)) (F64.fin (xyscale K)))
  let sy := F64.sub
    (F64.add (F64.fin ((height / 2 : Int) : K))
      (F64.mul (F64.mul (F64.add p.1 p.2.1) (sin30 M)) (F64.fin (xyscale K))))
    (F64.mul p.2.2 (F64.fin (zscale K)))
  (sx, sy)

/-- The text of the first `Fprintf` of `svg`. -/
def svgHeader : String :=
  "<svg xmlns='http://www.w3.org/2000/svg' " ++
  "style='stroke: grey; fill: white; stroke-width: 0.7' " ++
  "width='" ++ fmtD width ++ "' height='" ++ fmtD height ++ "'>"

/-- The text of the `Fprintf` in the loop of `svg`, from its nine arguments. -/
def polygonText (M : MathOps K) (stroke : String) (ax ay bx by1 cx cy dx dy : F64 K) : String :=
  "<polygon style='stroke: " ++ stroke ++ ";' points='" ++
  M.fmtG ax ++ "," ++ M.fmtG ay ++ " " ++ M.fmtG bx ++ "," ++ M.fmtG by1 ++ " " ++
  M.fmtG cx ++ "," ++ M.fmtG cy ++ " " ++ M.fmtG dx ++ "," ++ M.fmtG dy ++ "'/>\n"

/-- The body of the inner loop of `svg`: one polygon appended to the output. -/
def svgCell [FloorRing K] (M : MathOps K) (funcName : String) (z_min z_max : F64 K) (i j : Int)
    (w : List String) : List String :=
  let a := corner M funcName (i + 1) j
  let b := corner M funcName i j
  let c := corner M funcName i (j + 1)
  let d := corner M funcName (i + 1) (j + 1)
  w ++ [polygonText M (color M funcName i j z_min z_max) a.1 a.2 b.1 b.2 c.1 c.2 d.1 d.2]

/-- Go `svg`: the strings written to `w`, in order (the `Content-Type` header
is not part of the body and is left out). -/
def svg [FloorRing K] (M : MathOps K) (funcName : String) : List String :=
  let w := [svgHeader]
  let z := min_max M funcName
  let w := forLoop cells (fun i w1 =>
    forLoop cells (fun j w2 => svgCell M funcName z.1 z.2 i j w2) w1) w
  w ++ ["</svg>\n"]

end Program

/-- A rational stand-in for package `math`, for evaluating the program on
concrete inputs: Taylor polynomials of low order. -/
def testOps : MathOps ℚ where
  sin x := x - x ^ 3 / 6
  cos x := 1 - x ^ 2 / 2
  exp x := 1 + x + x ^ 2 / 2
  hypot x y := max |x| |y|
  pi := 22 / 7
  fmtG
    | F64.fin v => toString v
    | F64.nan => "NaN"
    | F64.pinf => "+Inf"
    | F64.ninf => "-Inf"

/-! ## Vocabulary of the statements -/

/-- A `float64` that is a number, neither NaN nor infinite. -/
def F64.IsFinite {K : Type} (a : F64 K) : Prop := ∃ v : K, a = F64.fin v

/-- The domain coordinate that `getXyz` computes for the corner index `i`:
`xyrange * (float64(i)/cells - 0.5)`, as a number. -/
def coord (K : Type) [LinearOrderedField K] (i : Int) : K :=
  xyrange K * ((i : K) / (cells : K) - 0.5)

/-- The pair `s = (min, max)` encloses `z` under Go's `<=`: `min <= z` and
`z <= max` both evaluate to true. -/
def Encloses {K : Type} [LinearOrderedField K] (s : F64 K × F64 K) (z : F64 K) : Prop :=
  F64.le s.1 z = true ∧ F64.le z s.2 = true

/-- The elevation that `getXyz` returns for the corner `(i, j)`, as a number
(`getXyz_elev` below: the elevation is never NaN or infinite). -/
def elev {K : Type} [LinearOrderedField K] (M : MathOps K) (funcName : String) (i j : Int) : K :=
  match (getXyz M funcName i j).2.2 with
  | F64.fin v => v
  | _ => 0

/-- The least elevation over the four corners `(i, j)`, `(i, j+1)`, `(i+1, j)`,
`(i+1, j+1)` of a cell. -/
def cellMin {K : Type} [LinearOrderedField K] (M : MathOps K) (funcName : String) (i j : Int) : K :=
  min (min (min (elev M funcName i j) (elev M funcName i (j + 1))) (elev M funcName (i + 1) j))
    (elev M funcName (i + 1) (j + 1))

/-- The greatest elevation over the four corners of a cell. -/
def cellMax {K : Type} [LinearOrderedField K] (M : MathOps K) (funcName : String) (i j : Int) : K :=
  max (max (max (elev M funcName i j) (elev M funcName i (j + 1))) (elev M funcName (i + 1) j))
    (elev M funcName (i + 1) (j + 1))

/-- The two hexadecimal digits of a channel value, lower case, as the
specification's `#RR0000` and `#0000BB` write it. -/
def spec_hex2 (n : Int) : String :=
  String.mk [Nat.digitChar (n.toNat / 16), Nat.digitChar (n.toNat % 16)]

/-- The colour mapper as section 4.4 of the specification words it, from the
cell extrema `(cmin, cmax)` and the surface extrema `(zmin, zmax)`: if
`|cmax| > |cmin|`, intensity `min(255, exp(|cmax|) / exp(|zmax|) * 255)` in the
red channel; else intensity `min(255, exp(|cmin|) / exp(|zmin|) * 255)` in the
blue channel; the channel value is the floor of the intensity. -/
def spec_color {K : Type} [LinearOrderedField K] [FloorRing K] (M : MathOps K)
    (cmin cmax zmin zmax : K) : String :=
  if |cmax| > |cmin| then
    "#" ++ spec_hex2 ⌊min 255 (M.exp |cmax| / M.exp |zmax| * 255)⌋ ++ "0000"
  else
    "#0000" ++ spec_hex2 ⌊min 255 (M.exp |cmin| / M.exp |zmin| * 255)⌋

/-- The `points` attribute of a polygon whose vertices are `pts`, in that
order: `x,y` pairs separated by one blank. -/
def spec_points {K : Type} (M : MathOps K) (pts : List (F64 K × F64 K)) : String :=
  " ".intercalate (pts.map fun p => M.fmtG p.1 ++ "," ++ M.fmtG p.2)

/-- The polygon element of cell `(i, j)`: stroke `color(i, j, zmin, zmax)` and
the projected corners in the order `(i+1, j)`, `(i, j)`, `(i, j+1)`,
`(i+1, j+1)`. -/
def spec_polygon {K : Type} [LinearOrderedField K] [FloorRing K] (M : MathOps K)
    (funcName : String) (zmin zmax : F64 K) (i j : Int) : String :=
  "<polygon style='stroke: " ++ color M funcName i j zmin zmax ++ ";' points='" ++
    spec_points M [corner M funcName (i + 1) j, corner M funcName i j,
      corner M funcName i (j + 1), corner M funcName (i + 1) (j + 1)] ++ "'/>\n"

/-- The index pair `(i, j)` is a corner of the grid: `0 <= i, j <= cells`. -/
def InGrid (i j : Int) : Prop := 0 ≤ i ∧ i ≤ cells ∧ 0 ≤ j ∧ j ≤ cells

/-- Both components of the pair `s = (min, max)` are the elevation that
`getXyz` returns at some corner of the grid. -/
def Attained {K : Type} [LinearOrderedField K] (M : MathOps K) (funcName : String)
    (s : F64 K × F64 K) : Prop :=
  (∃ i j : Int, InGrid i j ∧ s.1 = (getXyz M funcName i j).2.2) ∧
  (∃ i j : Int, InGrid i j ∧ s.2 = (getXyz M funcName i j).2.2)

/-- The corner index pairs of the grid, each listed once. -/
def gridCorners : List (Nat × Nat) :=
  List.product (List.range (cells + 1)) (List.range (cells + 1))

/-- The surface extrema as section 3 of the specification words them: the
minimum and the maximum elevation across the entire grid, each corner visited
once. -/
def spec_min_max {K : Type} [LinearOrderedField K] (M : MathOps K) (funcName : String) : K × K :=
  let zs := gridCorners.map fun p => elev M funcName (p.1 : Int) (p.2 : Int)
  (zs.foldl min (elev M funcName 0 0), zs.foldl max (elev M funcName 0 0))

/-! ## Handlers and the package-level variable `funcName`

`main` registers three handlers; each assigns its selector to the
package-level variable `funcName` and then calls `svg`, whose calls of
`getXyz` read the variable.  `net/http` runs every request in a goroutine of
its own, so two handlers can be in progress at once. -/

/-- The routes that `main` registers: `/`, `/eggbox` and `/saddle`. -/
inductive Route where
  | root : Route
  | eggbox : Route
  | saddle : Route
  deriving DecidableEq, Repr

/-- The selector that the handler of a route assigns to `funcName`. -/
def Route.selector : Route → String
  | Route.root => "f"
  | Route.eggbox => "eggbox"
  | Route.saddle => "saddle"

/-- A request in progress: the selector that its handler assigns, the number
of statements it has executed, its local variables `z_min, z_max` and the body
it has written so far. -/
structure Goroutine (K : Type) where
  /-- The string constant in the handler's assignment to `funcName`. -/
  selector : String
  /-- Statements executed so far, out of five. -/
  pc : Nat
  /-- The locals `z_min, z_max` of `svg`. -/
  z : F64 K × F64 K
  /-- The response body written so far. -/
  w : List String

/-- A request that has not started. -/
def Goroutine.start {K : Type} [LinearOrderedField K] (selector : String) : Goroutine K :=
  { selector := selector, pc := 0, z := (F64.fin 0, F64.fin 0), w := [] }

/-- The next statement of a request, run on the current value of `funcName`:
the handler's assignment, then the four statements of `svg` (header,
`min_max()`, the polygon loops, the closing tag).  Each statement is taken as
one step; `min_max` and the polygon loops read `funcName` as it is when they
run. -/
def Goroutine.step {K : Type} [LinearOrderedField K] [FloorRing K] (M : MathOps K)
    (funcName : String) (t : Goroutine K) : String × Goroutine K :=
  match t.pc with
  | 0 => (t.selector, { t with pc := 1 })
  | 1 => (funcName, { t with pc := 2, w := t.w ++ [svgHeader] })
  | 2 => (funcName, { t with pc := 3, z := min_max M funcName })
  | 3 =>
    let w := forLoop cells (fun i w1 =>
      forLoop cells (fun j w2 => svgCell M funcName t.z.1 t.z.2 i j w2) w1) t.w
    (funcName, { t with pc := 4, w := w })
  | 4 => (funcName, { t with pc := 5, w := t.w ++ ["</svg>\n"] })
  | _ => (funcName, t)

/-- Two requests in progress and the variable they share. -/
structure World (K : Type) where
  /-- The package-level variable. -/
  funcName : String
  /-- The request under observation. -/
  a : Goroutine K
  /-- Another request. -/
  b : Goroutine K

/-- One step of the world: the scheduler picks request `a` (`true`) or request
`b` (`false`). -/
def World.step {K : Type} [LinearOrderedField K] [FloorRing K] (M : MathOps K)
    (s : World K) (pickA : Bool) : World K :=
  if pickA then
    { s with funcName := (s.a.step M s.funcName).1, a := (s.a.step M s.funcName).2 }
  else
    { s with funcName := (s.b.step M s.funcName).1, b := (s.b.step M s.funcName).2 }

/-- The world after a schedule. -/
def World.run {K : Type} [LinearOrderedField K] [FloorRing K] (M : MathOps K)
    (schedule : List Bool) (s : World K) : World K :=
  schedule.foldl (World.step M) s

/-- The state of request `a` when nothing has assigned `funcName` since its
own assignment: what it has written so far is what `svg` writes under its own
selector `sel`, and the other request `b` is past its assignment. -/
def Undisturbed {K : Type} [LinearOrderedField K] [FloorRing K] (M : MathOps K) (sel : String)
    (s : World K) : Prop :=
  s.b.pc ≠ 0 ∧ s.a.selector = sel ∧
  ((s.a.pc = 0 ∧ s.a.w = []) ∨
   (s.a.pc = 1 ∧ s.funcName = sel ∧ s.a.w = []) ∨
   (s.a.pc = 2 ∧ s.funcName = sel ∧ s.a.w = [svgHeader]) ∨
   (s.a.pc = 3 ∧ s.funcName = sel ∧ s.a.w = [svgHeader] ∧ s.a.z = min_max M sel) ∨
   (s.a.pc = 4 ∧ s.a.w ++ ["</svg>\n"] = svg M sel) ∨
   (s.a.pc = 5 ∧ s.a.w = svg M sel))

/-! ## Basic facts -/

section Facts

variable {K : Type} [LinearOrderedField K]

omit [LinearOrderedField K] in
@[simp]
theorem F64.isFinite_fin (v : K) : F64.IsFinite (F64.fin v) := ⟨v, rfl⟩

@[simp]
theorem F64.add_fin (a b : K) : F64.add (F64.fin a) (F64.fin b) = F64.fin (a + b) := rfl

@[simp]
theorem F64.sub_fin (a b : K) : F64.sub (F64.fin a) (F64.fin b) = F64.fin (a - b) := by
  simp [F64.sub, F64.neg, sub_eq_add_neg]

@[simp]
theorem F64.mul_fin (a b : K) : F64.mul (F64.fin a) (F64.fin b) = F64.fin (a * b) := rfl

theorem F64.div_fin (a b : K) (hb : b ≠ 0) :
    F64.div (F64.fin a) (F64.fin b) = F64.fin (a / b) := by
  simp [F64.div, hb]

@[simp]
theorem F64.abs_fin (a : K) : F64.abs (F64.fin a) = F64.fin |a| := rfl

@[simp]
theorem F64.lt_fin (a b : K) : F64.lt (F64.fin a) (F64.fin b) = decide (a < b) := rfl

@[simp]
theorem F64.gt_fin (a b : K) : F64.gt (F64.fin a) (F64.fin b) = decide (b < a) := rfl

@[simp]
theorem F64.le_fin (a b : K) : F64.le (F64.fin a) (F64.fin b) = decide (a ≤ b) := rfl

theorem cells_ne_zero : ((cells : Nat) : K) ≠ 0 := by
  simp [cells]

theorem safeValue_isFinite (v : F64 K) : (safeValue v).IsFinite := by
  cases v <;> simp [safeValue, F64.isNaN, F64.isInf]

theorem f_isFinite (M : MathOps K) (x y : F64 K) : (f M x y).IsFinite :=
  safeValue_isFinite _

theorem eggbox_fin (M : MathOps K) (x y : K) :
    eggbox M (F64.fin x) (F64.fin y) = F64.fin (0.2 * (M.cos x + M.cos y)) := by
  simp [eggbox, MathOps.Cos]

theorem saddle_fin (x y : K) :
    saddle (F64.fin x) (F64.fin y) = F64.fin (y * y / (25.0 * 25.0) - x * x / (17.0 * 17.0)) := by
  have h25 : (25.0 * 25.0 : K) ≠ 0 := by norm_num
  have h17 : (17.0 * 17.0 : K) ≠ 0 := by norm_num
  simp only [saddle, F64.mul_fin, F64.div_fin _ _ h25, F64.div_fin _ _ h17, F64.sub_fin]

theorem getXyz_x (M : MathOps K) (fn : String) (i j : Int) :
    (getXyz M fn i j).1 = F64.fin (coord K i) := by
  simp [getXyz, coord, F64.div_fin _ _ cells_ne_zero]

theorem getXyz_y (M : MathOps K) (fn : String) (i j : Int) :
    (getXyz M fn i j).2.1 = F64.fin (coord K j) := by
  simp [getXyz, coord, F64.div_fin _ _ cells_ne_zero]

theorem getXyz_z (M : MathOps K) (fn : String) (i j : Int) :
    (getXyz M fn i j).2.2 =
      if fn = "f" then f M (F64.fin (coord K i)) (F64.fin (coord K j))
      else if fn = "eggbox" then eggbox M (F64.fin (coord K i)) (F64.fin (coord K j))
      else if fn = "saddle" then saddle (F64.fin (coord K i)) (F64.fin (coord K j))
      else F64.fin 0 := by
  simp [getXyz, coord, F64.div_fin _ _ cells_ne_zero]

theorem getXyz_z_isFinite (M : MathOps K) (fn : String) (i j : Int) :
    (getXyz M fn i j).2.2.IsFinite := by
  rw [getXyz_z]
  split_ifs
  · exact f_isFinite _ _ _
  · rw [eggbox_fin]; simp
  · rw [saddle_fin]; simp
  · simp

/-! ### Loops -/

omit [LinearOrderedField K] in
theorem forLoop_zero {σ : Type} (body : Int → σ → σ) (s : σ) : forLoop 0 body s = s := rfl

omit [LinearOrderedField K] in
theorem forLoop_succ {σ : Type} (n : Nat) (body : Int → σ → σ) (s : σ) :
    forLoop (n + 1) body s = body (n : Int) (forLoop n body s) := by
  simp [forLoop, List.range_succ]

omit [LinearOrderedField K] in
/-- A property that every iteration keeps holds after the loop. -/
theorem forLoop_keeps {σ : Type} (P : σ → Prop) (n : Nat) (body : Int → σ → σ)
    (hkeep : ∀ i : Nat, i < n → ∀ s, P s → P (body (i : Int) s)) (s : σ) (hs : P s) :
    P (forLoop n body s) := by
  induction n with
  | zero => exact hs
  | succ n ih =>
    rw [forLoop_succ]
    exact hkeep n (Nat.lt_succ_self n) _
      (ih fun i hi => hkeep i (Nat.lt_succ_of_lt hi))

omit [LinearOrderedField K] in
/-- A property that iteration `k` brings about and every iteration keeps holds
after the loop. -/
theorem forLoop_reaches {σ : Type} (P : σ → Prop) (n : Nat) (body : Int → σ → σ)
    (k : Nat) (hk : k < n) (hset : ∀ s, P (body (k : Int) s))
    (hkeep : ∀ i : Nat, i < n → ∀ s, P s → P (body (i : Int) s)) (s : σ) :
    P (forLoop n body s) := by
  induction n with
  | zero => exact absurd hk (Nat.not_lt_zero k)
  | succ n ih =>
    rw [forLoop_succ]
    rcases Nat.lt_succ_iff_lt_or_eq.mp hk with h | h
    · exact hkeep n (Nat.lt_succ_self n) _
        (ih h fun i hi => hkeep i (Nat.lt_succ_of_lt hi))
    · subst h
      exact hset _

/-! ### The running minimum and maximum -/

theorem update_encloses_self (v : K) (s : F64 K × F64 K) :
    Encloses (update (F64.fin v) s) (F64.fin v) := by
  obtain ⟨lo, hi⟩ := s
  cases lo <;> cases hi <;>
    simp [Encloses, update, F64.isNaN, F64.lt, F64.gt, F64.le] <;>
    (try split_ifs) <;> simp_all [F64.le, le_of_lt]

theorem update_encloses_keep (v : K) (s : F64 K × F64 K) (z : F64 K) (h : Encloses s z) :
    Encloses (update (F64.fin v) s) z := by
  obtain ⟨lo, hi⟩ := s
  cases lo <;> cases hi <;> cases z <;>
    simp_all [Encloses, update, F64.isNaN, F64.lt, F64.gt, F64.le] <;>
    (try split_ifs) <;> simp_all [F64.le] <;>
    linarith

theorem update_getXyz_keep (M : MathOps K) (fn : String) (a b : Int)
    (s : F64 K × F64 K) (z : F64 K) (h : Encloses s z) :
    Encloses (update (getXyz M fn a b).2.2 s) z := by
  obtain ⟨v, hv⟩ := getXyz_z_isFinite M fn a b
  rw [hv]
  exact update_encloses_keep v s z h

theorem update_getXyz_self (M : MathOps K) (fn : String) (a b : Int) (s : F64 K × F64 K) :
    Encloses (update (getXyz M fn a b).2.2 s) (getXyz M fn a b).2.2 := by
  obtain ⟨v, hv⟩ := getXyz_z_isFinite M fn a b
  rw [hv]
  exact update_encloses_self v s

/-- Visiting a cell keeps every elevation already enclosed. -/
theorem cellLoop_keeps (M : MathOps K) (fn : String) (i j : Int)
    (s : F64 K × F64 K) (z : F64 K) (h : Encloses s z) :
    Encloses (cellLoop M fn i j s) z := by
  unfold cellLoop
  refine forLoop_keeps (fun t => Encloses t z) 2 _ (fun xoff _ s1 h1 => ?_) s h
  exact forLoop_keeps (fun t => Encloses t z) 2 _
    (fun yoff _ s2 h2 => update_getXyz_keep M fn _ _ s2 z h2) s1 h1

/-- Visiting a cell encloses the elevation of each of its four corners. -/
theorem cellLoop_reaches (M : MathOps K) (fn : String) (i j : Int) (xoff yoff : Nat)
    (hx : xoff < 2) (hy : yoff < 2) (s : F64 K × F64 K) :
    Encloses (cellLoop M fn i j s) (getXyz M fn (i + xoff) (j + yoff)).2.2 := by
  unfold cellLoop
  refine forLoop_reaches (fun t => Encloses t _) 2 _ xoff hx (fun s1 => ?_)
    (fun x _ s1 h1 => ?_) s
  · exact forLoop_reaches (fun t => Encloses t _) 2 _ yoff hy
      (fun s2 => update_getXyz_self M fn _ _ s2)
      (fun y _ s2 h2 => update_getXyz_keep M fn _ _ s2 _ h2) s1
  · exact forLoop_keeps (fun t => Encloses t _) 2 _
      (fun y _ s2 h2 => update_getXyz_keep M fn _ _ s2 _ h2) s1 h1

omit [LinearOrderedField K] in
/-- Every corner index in `0..cells` is a corner of some cell. -/
theorem corner_split (i : Int) (h0 : 0 ≤ i) (h : i ≤ cells) :
    ∃ c xoff : Nat, c < cells ∧ xoff < 2 ∧ (c : Int) + (xoff : Int) = i := by
  simp only [cells] at *
  by_cases hi : i = 100
  · exact ⟨99, 1, by norm_num, by norm_num, by rw [hi]; norm_num⟩
  · exact ⟨i.toNat, 0, by omega, by norm_num, by simp; omega⟩

/-- The loops of `min_max` enclose the elevation of every corner of the grid,
from any starting pair. -/
theorem gridLoop_reaches (M : MathOps K) (fn : String) (i j : Int)
    (hi0 : 0 ≤ i) (hi : i ≤ cells) (hj0 : 0 ≤ j) (hj : j ≤ cells) (s : F64 K × F64 K) :
    Encloses
      (forLoop cells (fun a s1 => forLoop cells (fun b s2 => cellLoop M fn a b s2) s1) s)
      (getXyz M fn i j).2.2 := by
  obtain ⟨ci, xoff, hci, hxoff, rfl⟩ := corner_split i hi0 hi
  obtain ⟨cj, yoff, hcj, hyoff, rfl⟩ := corner_split j hj0 hj
  generalize hz : (getXyz M fn (ci + xoff) (cj + yoff)).2.2 = z
  have hcell : ∀ s2, Encloses (cellLoop M fn ci cj s2) z := fun s2 =>
    hz ▸ cellLoop_reaches M fn ci cj xoff yoff hxoff hyoff s2
  have hrow : ∀ (a : Int) (s1 : F64 K × F64 K), Encloses s1 z →
      Encloses (forLoop cells (fun b s2 => cellLoop M fn a b s2) s1) z := fun a s1 h1 =>
    forLoop_keeps (fun t => Encloses t z) cells (fun b s2 => cellLoop M fn a b s2)
      (fun b _ s2 h2 => cellLoop_keeps M fn a b s2 z h2) s1 h1
  exact forLoop_reaches (fun t => Encloses t z) cells
    (fun a s1 => forLoop cells (fun b s2 => cellLoop M fn a b s2) s1) ci hci
    (fun s1 => forLoop_reaches (fun t => Encloses t z) cells
      (fun b s2 => cellLoop M fn ci b s2) cj hcj hcell
      (fun b _ s2 h2 => cellLoop_keeps M fn ci b s2 z h2) s1)
    (fun a _ s1 h1 => hrow a s1 h1) s

theorem getXyz_elev (M : MathOps K) (fn : String) (i j : Int) :
    (getXyz M fn i j).2.2 = F64.fin (elev M fn i j) := by
  obtain ⟨v, hv⟩ := getXyz_z_isFinite M fn i j
  simp [elev, hv]

/-! ### The extrema of one cell -/

omit [LinearOrderedField K] in
theorem forLoop_two {σ : Type} (body : Int → σ → σ) (s : σ) :
    forLoop 2 body s = body 1 (body 0 s) := rfl

theorem cellLoop_eq (M : MathOps K) (fn : String) (i j : Int) (s : F64 K × F64 K) :
    cellLoop M fn i j s =
      update (getXyz M fn (i + 1) (j + 1)).2.2 (update (getXyz M fn (i + 1) j).2.2
        (update (getXyz M fn i (j + 1)).2.2 (update (getXyz M fn i j).2.2 s))) := by
  simp only [cellLoop, forLoop_two, add_zero]

theorem update_nan (v : K) :
    update (F64.fin v) (F64.nan, F64.nan) = (F64.fin v, F64.fin v) := by
  simp [update, F64.isNaN]

theorem update_fin (v a b : K) :
    update (F64.fin v) (F64.fin a, F64.fin b) = (F64.fin (min a v), F64.fin (max b v)) := by
  simp only [update, F64.isNaN, F64.lt_fin, F64.gt_fin, Bool.false_or, decide_eq_true_eq]
  congr 1
  · split_ifs with h
    · rw [min_eq_right (le_of_lt h)]
    · rw [min_eq_left (not_lt.mp h)]
  · split_ifs with h
    · rw [max_eq_right (le_of_lt h)]
    · rw [max_eq_left (not_lt.mp h)]

/-- The pair `(min, max)` that `color` holds after its loops: the least and the
greatest of the four corner elevations. -/
theorem cellExtrema_eq (M : MathOps K) (fn : String) (i j : Int) :
    cellExtrema M fn i j = (F64.fin (cellMin M fn i j), F64.fin (cellMax M fn i j)) := by
  simp only [cellExtrema, cellLoop_eq, getXyz_elev, update_nan, update_fin, cellMin, cellMax]

/-! ### The colour intensity -/

theorem intensity_fin (M : MathOps K) (hexp : ∀ x : K, 0 ≤ x → 0 < M.exp x) (c g : K) :
    intensity M (F64.fin c) (F64.fin g) =
      F64.fin (min 255 (M.exp |c| / M.exp |g| * 255)) := by
  have hg : M.exp |g| ≠ 0 := ne_of_gt (hexp _ (abs_nonneg g))
  simp only [intensity, F64.abs_fin, MathOps.Exp, F64.div_fin _ _ hg, F64.mul_fin, F64.gt_fin,
    decide_eq_true_eq]
  split_ifs with h
  · rw [min_eq_left (le_of_lt h)]
  · rw [min_eq_right (not_lt.mp h)]

theorem intensity_nonneg (M : MathOps K) (hexp : ∀ x : K, 0 ≤ x → 0 < M.exp x) (c g : K) :
    (0 : K) ≤ min 255 (M.exp |c| / M.exp |g| * 255) := by
  have hc := hexp _ (abs_nonneg c)
  have hg := hexp _ (abs_nonneg g)
  exact le_min (by norm_num) (by positivity)

theorem toInt_intensity [FloorRing K] (M : MathOps K) (hexp : ∀ x : K, 0 ≤ x → 0 < M.exp x)
    (c g : K) :
    F64.toInt (intensity M (F64.fin c) (F64.fin g)) =
      ⌊min 255 (M.exp |c| / M.exp |g| * 255)⌋ := by
  rw [intensity_fin M hexp, F64.toInt, if_pos (intensity_nonneg M hexp c g)]

theorem toInt_intensity_range [FloorRing K] (M : MathOps K)
    (hexp : ∀ x : K, 0 ≤ x → 0 < M.exp x) (c g : K) :
    0 ≤ F64.toInt (intensity M (F64.fin c) (F64.fin g)) ∧
    F64.toInt (intensity M (F64.fin c) (F64.fin g)) ≤ 255 := by
  rw [toInt_intensity M hexp]
  refine ⟨Int.floor_nonneg.mpr (intensity_nonneg M hexp c g), ?_⟩
  have h : min 255 (M.exp |c| / M.exp |g| * 255) ≤ ((255 : Int) : K) := by
    push_cast
    exact min_le_left _ _
  exact Int.floor_le_floor h |>.trans (le_of_eq (Int.floor_intCast 255))

omit [LinearOrderedField K] in
theorem fmt02x_eq_spec_hex2_nat (n : Nat) (h : n < 256) :
    fmt02x (n : Int) = spec_hex2 (n : Int) := by
  interval_cases n <;> rfl

omit [LinearOrderedField K] in
theorem fmt02x_eq_spec_hex2 (n : Int) (h0 : 0 ≤ n) (h : n ≤ 255) :
    fmt02x n = spec_hex2 n := by
  obtain ⟨m, rfl⟩ := Int.eq_ofNat_of_zero_le h0
  exact fmt02x_eq_spec_hex2_nat m (by omega)

/-! ### Unrecognised selectors -/

/-- The selector is none of the three names that `getXyz` dispatches on. -/
theorem getXyz_z_unknown (M : MathOps K) (fn : String)
    (hf : fn ≠ "f") (he : fn ≠ "eggbox") (hs : fn ≠ "saddle") (i j : Int) :
    (getXyz M fn i j).2.2 = F64.fin 0 := by
  rw [getXyz_z, if_neg hf, if_neg he, if_neg hs]

theorem update_zero_zero : update (F64.fin (0 : K)) (F64.fin 0, F64.fin 0) = (F64.fin 0, F64.fin 0) := by
  rw [update_fin, min_self, max_self]

theorem cellLoop_unknown (M : MathOps K) (fn : String)
    (hf : fn ≠ "f") (he : fn ≠ "eggbox") (hs : fn ≠ "saddle") (i j : Int)
    (s : F64 K × F64 K) (h : s = (F64.nan, F64.nan) ∨ s = (F64.fin 0, F64.fin 0)) :
    cellLoop M fn i j s = (F64.fin 0, F64.fin 0) := by
  simp only [cellLoop_eq, getXyz_z_unknown M fn hf he hs]
  rcases h with rfl | rfl
  · simp only [update_nan, update_zero_zero]
  · simp only [update_zero_zero]

theorem min_max_unknown (M : MathOps K) (fn : String)
    (hf : fn ≠ "f") (he : fn ≠ "eggbox") (hs : fn ≠ "saddle") :
    min_max M fn = (F64.fin 0, F64.fin 0) := by
  have hcell := cellLoop_unknown M fn hf he hs
  have hrow : ∀ (n : Nat) (a : Int) (s : F64 K × F64 K),
      (s = (F64.nan, F64.nan) ∨ s = (F64.fin 0, F64.fin 0)) →
      (forLoop n (fun b s2 => cellLoop M fn a b s2) s = (F64.nan, F64.nan) ∨
        forLoop n (fun b s2 => cellLoop M fn a b s2) s = (F64.fin 0, F64.fin 0)) :=
    fun n a s h =>
      forLoop_keeps (fun t => t = (F64.nan, F64.nan) ∨ t = (F64.fin 0, F64.fin 0)) n
        (fun b s2 => cellLoop M fn a b s2) (fun b _ s2 h2 => Or.inr (hcell a b s2 h2)) s h
  have hgrid : ∀ (n : Nat) (s : F64 K × F64 K),
      (s = (F64.nan, F64.nan) ∨ s = (F64.fin 0, F64.fin 0)) →
      (forLoop n (fun a s1 => forLoop cells (fun b s2 => cellLoop M fn a b s2) s1) s
          = (F64.nan, F64.nan) ∨
        forLoop n (fun a s1 => forLoop cells (fun b s2 => cellLoop M fn a b s2) s1) s
          = (F64.fin 0, F64.fin 0)) :=
    fun n s h =>
      forLoop_keeps (fun t => t = (F64.nan, F64.nan) ∨ t = (F64.fin 0, F64.fin 0)) n
        (fun a s1 => forLoop cells (fun b s2 => cellLoop M fn a b s2) s1)
        (fun a _ s1 h1 => hrow cells a s1 h1) s h
  have hc : cells = 99 + 1 := rfl
  unfold min_max
  rw [hc, forLoop_succ, forLoop_succ]
  exact hcell _ _ _ (hrow 99 _ _ (hgrid 99 _ (Or.inl rfl)))

/-! ### The document -/

omit [LinearOrderedField K] in
theorem forLoop_append {α : Type} (n : Nat) (g : Int → α) (w : List α) :
    forLoop n (fun i acc => acc ++ [g i]) w = w ++ (List.range n).map fun (k : Nat) => g (k : Int) := by
  induction n with
  | zero => simp [forLoop_zero]
  | succ n ih => rw [forLoop_succ, ih, List.range_succ, List.map_append, List.append_assoc]; rfl

omit [LinearOrderedField K] in
/-- Two nested loops that append one element per iteration write the elements
in row-major order. -/
theorem forLoop_append_grid {α : Type} (n m : Nat) (g : Int → Int → α) (w : List α) :
    forLoop n (fun i w1 => forLoop m (fun j w2 => w2 ++ [g i j]) w1) w =
      w ++ (List.range (n * m)).map fun (k : Nat) => g ((k / m : Nat) : Int) ((k % m : Nat) : Int) := by
  induction n with
  | zero => simp [forLoop_zero]
  | succ n ih =>
    rw [forLoop_succ, ih, forLoop_append, Nat.succ_mul, List.range_add, List.map_append,
      List.append_assoc, List.map_map]
    congr 2
    refine List.map_congr_left fun k hk => ?_
    have hkm : k < m := List.mem_range.mp hk
    have hm : 0 < m := Nat.lt_of_le_of_lt (Nat.zero_le k) hkm
    have h1 : (n * m + k) / m = n := by
      rw [Nat.add_comm, Nat.add_mul_div_right _ _ hm, Nat.div_eq_of_lt hkm, Nat.zero_add]
    have h2 : (n * m + k) % m = k := by
      rw [Nat.add_comm, Nat.add_mul_mod_self_right, Nat.mod_eq_of_lt hkm]
    simp only [Function.comp_apply, h1, h2]

theorem svgCell_eq [FloorRing K] (M : MathOps K) (fn : String) (zmin zmax : F64 K) (i j : Int)
    (w : List String) :
    svgCell M fn zmin zmax i j w = w ++ [spec_polygon M fn zmin zmax i j] := by
  simp [svgCell, spec_polygon, polygonText, spec_points, String.intercalate,
    String.intercalate.go, String.append_assoc]

/-- The writes of `svg`: the header, one polygon per cell in row-major order,
the closing tag. -/
theorem svg_eq [FloorRing K] (M : MathOps K) (fn : String) :
    svg M fn = [svgHeader] ++
      ((List.range (cells * cells)).map fun (k : Nat) =>
        spec_polygon M fn (min_max M fn).1 (min_max M fn).2 ((k / cells : Nat) : Int)
          ((k % cells : Nat) : Int)) ++ ["</svg>\n"] := by
  unfold svg
  simp only [svgCell_eq]
  rw [forLoop_append_grid cells cells
    (fun i j => spec_polygon M fn (min_max M fn).1 (min_max M fn).2 i j)]

theorem testOps_exp_zero : testOps.exp 0 ≠ 0 := by
  norm_num [testOps]

theorem testOps_hypot_zero : testOps.hypot 0 0 = 0 := by
  norm_num [testOps]

theorem testOps_exp_pos (x : ℚ) (_ : 0 ≤ x) : 0 < testOps.exp x := by
  show 0 < 1 + x + x ^ 2 / 2
  nlinarith [sq_nonneg (x + 1)]

theorem testOps_cos_neg (x : ℚ) : testOps.cos (-x) = testOps.cos x := by
  simp [testOps]

/-! ### The extrema of the grid -/

theorem update_attained (M : MathOps K) (fn : String) (a b : Int) (hab : InGrid a b)
    (s : F64 K × F64 K) (h : s = (F64.nan, F64.nan) ∨ Attained M fn s) :
    Attained M fn (update (getXyz M fn a b).2.2 s) := by
  rcases h with rfl | ⟨⟨i, j, hij, h1⟩, ⟨i', j', hij', h2⟩⟩
  · rw [getXyz_elev, update_nan, ← getXyz_elev]
    exact ⟨⟨a, b, hab, rfl⟩, ⟨a, b, hab, rfl⟩⟩
  · obtain ⟨lo, hi⟩ := s
    simp only at h1 h2
    rw [h1, h2, getXyz_elev M fn a b, getXyz_elev M fn i j, getXyz_elev M fn i' j', update_fin]
    constructor
    · rcases min_choice (elev M fn i j) (elev M fn a b) with h | h
      · exact ⟨i, j, hij, by rw [h, getXyz_elev]⟩
      · exact ⟨a, b, hab, by rw [h, getXyz_elev]⟩
    · rcases max_choice (elev M fn i' j') (elev M fn a b) with h | h
      · exact ⟨i', j', hij', by rw [h, getXyz_elev]⟩
      · exact ⟨a, b, hab, by rw [h, getXyz_elev]⟩

theorem cellLoop_attained (M : MathOps K) (fn : String) (i j : Nat)
    (hi : i < cells) (hj : j < cells)
    (s : F64 K × F64 K) (h : s = (F64.nan, F64.nan) ∨ Attained M fn s) :
    Attained M fn (cellLoop M fn i j s) := by
  have h00 : InGrid i j := by
    simp only [InGrid, cells] at *
    omega
  have h01 : InGrid i ((j : Int) + 1) := by
    simp only [InGrid, cells] at *
    omega
  have h10 : InGrid ((i : Int) + 1) j := by
    simp only [InGrid, cells] at *
    omega
  have h11 : InGrid ((i : Int) + 1) ((j : Int) + 1) := by
    simp only [InGrid, cells] at *
    omega
  rw [cellLoop_eq]
  exact update_attained M fn _ _ h11 _ (Or.inr (update_attained M fn _ _ h10 _
    (Or.inr (update_attained M fn _ _ h01 _ (Or.inr (update_attained M fn _ _ h00 _ h))))))

theorem min_max_attained (M : MathOps K) (fn : String) : Attained M fn (min_max M fn) := by
  have hrow : ∀ (a : Nat), a < cells → ∀ s : F64 K × F64 K,
      (s = (F64.nan, F64.nan) ∨ Attained M fn s) →
      (forLoop cells (fun b s2 => cellLoop M fn a b s2) s = (F64.nan, F64.nan) ∨
        Attained M fn (forLoop cells (fun b s2 => cellLoop M fn a b s2) s)) :=
    fun a ha s h =>
      forLoop_keeps (fun t => t = (F64.nan, F64.nan) ∨ Attained M fn t) cells
        (fun b s2 => cellLoop M fn a b s2)
        (fun b hb s2 h2 => Or.inr (cellLoop_attained M fn a b ha hb s2 h2)) s h
  have hall : min_max M fn = (F64.nan, F64.nan) ∨ Attained M fn (min_max M fn) :=
    forLoop_keeps (fun t => t = (F64.nan, F64.nan) ∨ Attained M fn t) cells
      (fun a s1 => forLoop cells (fun b s2 => cellLoop M fn a b s2) s1)
      (fun a ha s1 h1 => hrow a ha s1 h1) (F64.nan, F64.nan) (Or.inl rfl)
  rcases hall with h | h
  · have henc : Encloses (min_max M fn) (getXyz M fn 0 0).2.2 :=
      gridLoop_reaches M fn 0 0 (le_refl 0) (by decide) (le_refl 0) (by decide) _
    rw [h] at henc
    exact absurd henc.1 (by simp [F64.le])
  · exact h

/-- What `min_max` returns: two numbers that bound the elevation of every
corner of the grid and are each the elevation of some corner. -/
theorem min_max_char (M : MathOps K) (fn : String) :
    ∃ lo hi : K, min_max M fn = (F64.fin lo, F64.fin hi) ∧
      (∀ i j : Int, InGrid i j → lo ≤ elev M fn i j ∧ elev M fn i j ≤ hi) ∧
      (∃ i j : Int, InGrid i j ∧ lo = elev M fn i j) ∧
      (∃ i j : Int, InGrid i j ∧ hi = elev M fn i j) := by
  obtain ⟨⟨i, j, hij, h1⟩, ⟨i', j', hij', h2⟩⟩ := min_max_attained M fn
  rw [getXyz_elev] at h1 h2
  have hmm : min_max M fn = (F64.fin (elev M fn i j), F64.fin (elev M fn i' j')) :=
    Prod.ext h1 h2
  refine ⟨_, _, hmm, fun a b hab => ?_, ⟨i, j, hij, rfl⟩, ⟨i', j', hij', rfl⟩⟩
  have henc := gridLoop_reaches M fn a b hab.1 hab.2.1 hab.2.2.1 hab.2.2.2 (F64.nan, F64.nan)
  change Encloses (min_max M fn) _ at henc
  rw [hmm, getXyz_elev] at henc
  simpa [Encloses] using henc

/-! ### Library folds -/

theorem foldl_min_le_init (l : List K) (a : K) : l.foldl min a ≤ a := by
  induction l generalizing a with
  | nil => exact le_refl a
  | cons x xs ih => exact le_trans (ih (min a x)) (min_le_left a x)

theorem foldl_min_le_mem (l : List K) (a x : K) (hx : x ∈ l) : l.foldl min a ≤ x := by
  induction l generalizing a with
  | nil => cases hx
  | cons y ys ih =>
    rcases List.mem_cons.mp hx with rfl | h
    · exact le_trans (foldl_min_le_init ys (min a x)) (min_le_right a x)
    · exact ih (min a y) h

theorem foldl_min_mem (l : List K) (a : K) : l.foldl min a = a ∨ l.foldl min a ∈ l := by
  induction l generalizing a with
  | nil => exact Or.inl rfl
  | cons y ys ih =>
    rcases ih (min a y) with h | h
    · rcases min_choice a y with h2 | h2
      · exact Or.inl (by rw [List.foldl_cons, h, h2])
      · exact Or.inr (by rw [List.foldl_cons, h, h2]; exact List.mem_cons_self y ys)
    · exact Or.inr (List.mem_cons_of_mem y h)

theorem le_foldl_max_init (l : List K) (a : K) : a ≤ l.foldl max a := by
  induction l generalizing a with
  | nil => exact le_refl a
  | cons x xs ih => exact le_trans (le_max_left a x) (ih (max a x))

theorem le_foldl_max_mem (l : List K) (a x : K) (hx : x ∈ l) : x ≤ l.foldl max a := by
  induction l generalizing a with
  | nil => cases hx
  | cons y ys ih =>
    rcases List.mem_cons.mp hx with rfl | h
    · exact le_trans (le_max_right a x) (le_foldl_max_init ys (max a x))
    · exact ih (max a y) h

theorem foldl_max_mem (l : List K) (a : K) : l.foldl max a = a ∨ l.foldl max a ∈ l := by
  induction l generalizing a with
  | nil => exact Or.inl rfl
  | cons y ys ih =>
    rcases ih (max a y) with h | h
    · rcases max_choice a y with h2 | h2
      · exact Or.inl (by rw [List.foldl_cons, h, h2])
      · exact Or.inr (by rw [List.foldl_cons, h, h2]; exact List.mem_cons_self y ys)
    · exact Or.inr (List.mem_cons_of_mem y h)

omit [LinearOrderedField K] in
theorem mem_gridCorners (p : Nat × Nat) :
    p ∈ gridCorners ↔ InGrid (p.1 : Int) (p.2 : Int) := by
  obtain ⟨a, b⟩ := p
  simp only [gridCorners, List.pair_mem_product, List.mem_range, InGrid]
  omega

omit [LinearOrderedField K] in
theorem inGrid_toNat (i j : Int) (h : InGrid i j) :
    (i.toNat, j.toNat) ∈ gridCorners ∧ ((i.toNat : Nat) : Int) = i ∧ ((j.toNat : Nat) : Int) = j := by
  have hi : ((i.toNat : Nat) : Int) = i := Int.toNat_of_nonneg h.1
  have hj : ((j.toNat : Nat) : Int) = j := Int.toNat_of_nonneg h.2.2.1
  refine ⟨(mem_gridCorners _).mpr ?_, hi, hj⟩
  simp only [hi, hj]
  exact h

/-- The specification's extrema bound every corner elevation and are attained
on the grid. -/
theorem spec_min_max_char (M : MathOps K) (fn : String) :
    (∀ i j : Int, InGrid i j →
      (spec_min_max M fn).1 ≤ elev M fn i j ∧ elev M fn i j ≤ (spec_min_max M fn).2) ∧
    (∃ i j : Int, InGrid i j ∧ (spec_min_max M fn).1 = elev M fn i j) ∧
    (∃ i j : Int, InGrid i j ∧ (spec_min_max M fn).2 = elev M fn i j) := by
  have h00 : InGrid 0 0 := ⟨le_refl 0, by decide, le_refl 0, by decide⟩
  have hmem : ∀ i j : Int, InGrid i j →
      elev M fn i j ∈ gridCorners.map fun p => elev M fn (p.1 : Int) (p.2 : Int) := by
    intro i j h
    obtain ⟨hm, hi, hj⟩ := inGrid_toNat i j h
    refine List.mem_map.mpr ⟨(i.toNat, j.toNat), hm, ?_⟩
    simp only [hi, hj]
  have hback : ∀ z : K, (z ∈ gridCorners.map fun p => elev M fn (p.1 : Int) (p.2 : Int)) →
      ∃ i j : Int, InGrid i j ∧ z = elev M fn i j := by
    intro z hz
    obtain ⟨p, hp, rfl⟩ := List.mem_map.mp hz
    exact ⟨p.1, p.2, (mem_gridCorners p).mp hp, rfl⟩
  have hspec : spec_min_max M fn =
      ((gridCorners.map fun p => elev M fn (p.1 : Int) (p.2 : Int)).foldl min (elev M fn 0 0),
       (gridCorners.map fun p => elev M fn (p.1 : Int) (p.2 : Int)).foldl max (elev M fn 0 0)) :=
    rfl
  rw [hspec]
  generalize (gridCorners.map fun p => elev M fn (p.1 : Int) (p.2 : Int)) = zs at hmem hback
  refine ⟨fun i j h => ⟨foldl_min_le_mem zs _ _ (hmem i j h), le_foldl_max_mem zs _ _ (hmem i j h)⟩,
    ?_, ?_⟩
  · rcases foldl_min_mem zs (elev M fn 0 0) with h | h
    · exact ⟨0, 0, h00, h⟩
    · exact hback _ h
  · rcases foldl_max_mem zs (elev M fn 0 0) with h | h
    · exact ⟨0, 0, h00, h⟩
    · exact hback _ h

/-! ### The saddle on the grid -/

theorem coord_bounds (i : Int) (h0 : 0 ≤ i) (h1 : i ≤ cells) :
    -15 ≤ coord K i ∧ coord K i ≤ 15 := by
  have h0K : (0 : K) ≤ (i : K) := by exact_mod_cast h0
  have h1K : (i : K) ≤ 100 := by exact_mod_cast h1
  simp only [coord, xyrange, cells]
  constructor <;> norm_num <;> linarith

theorem coord_sq_le (i : Int) (h0 : 0 ≤ i) (h1 : i ≤ cells) : coord K i ^ 2 ≤ 225 := by
  obtain ⟨ha, hb⟩ := coord_bounds (K := K) i h0 h1
  nlinarith

theorem coord_zero : coord K 0 = -15 := by
  simp only [coord, xyrange, cells]
  norm_num

theorem coord_fifty : coord K 50 = 0 := by
  simp only [coord, xyrange, cells]
  norm_num

theorem elev_saddle (M : MathOps K) (i j : Int) :
    elev M "saddle" i j = coord K j ^ 2 / 625 - coord K i ^ 2 / 289 := by
  have h : F64.fin (elev M "saddle" i j) =
      F64.fin (coord K j ^ 2 / 625 - coord K i ^ 2 / 289) := by
    rw [← getXyz_elev, getXyz_z, if_neg (by decide), if_neg (by decide), if_pos rfl, saddle_fin]
    congr 1
    norm_num
    ring
  exact F64.fin.inj h

theorem min_max_saddle (M : MathOps K) :
    min_max M "saddle" = (F64.fin (-225 / 289), F64.fin (9 / 25)) := by
  obtain ⟨lo, hi, hmm, hbound, ⟨i, j, hij, hlo⟩, ⟨i', j', hij', hhi⟩⟩ := min_max_char M "saddle"
  have hA : InGrid 0 50 := ⟨le_refl 0, by decide, by decide, by decide⟩
  have hB : InGrid 50 0 := ⟨by decide, by decide, le_refl 0, by decide⟩
  have h1 := (hbound 0 50 hA).1
  have h2 := (hbound 50 0 hB).2
  rw [elev_saddle, coord_zero, coord_fifty] at h1 h2
  rw [elev_saddle] at hlo hhi
  have hi2 := coord_sq_le (K := K) i hij.1 hij.2.1
  have hj2 : (0 : K) ≤ coord K j ^ 2 := sq_nonneg _
  have hi2' : (0 : K) ≤ coord K i' ^ 2 := sq_nonneg _
  have hj2' := coord_sq_le (K := K) j' hij'.2.2.1 hij'.2.2.2
  have hloeq : lo = -225 / 289 := by
    apply le_antisymm
    · norm_num at h1
      linarith
    · rw [hlo]
      have : coord K i ^ 2 / 289 ≤ 225 / 289 := by
        apply div_le_div_of_nonneg_right hi2
        norm_num
      have : (0 : K) ≤ coord K j ^ 2 / 625 := by positivity
      linarith
  have hhieq : hi = 9 / 25 := by
    apply le_antisymm
    · rw [hhi]
      have : coord K j' ^ 2 / 625 ≤ 225 / 625 := by
        apply div_le_div_of_nonneg_right hj2'
        norm_num
      have : (0 : K) ≤ coord K i' ^ 2 / 289 := by positivity
      norm_num at *
      linarith
    · norm_num at h2
      linarith
  rw [hmm, hloeq, hhieq]

/-! ### Cells inside the grid -/

theorem cellMin_le_cellMax (M : MathOps K) (fn : String) (i j : Int) :
    cellMin M fn i j ≤ cellMax M fn i j := by
  unfold cellMin cellMax
  exact le_trans (min_le_left _ _) (le_trans (min_le_left _ _) (le_trans (min_le_left _ _)
    (le_trans (le_max_left _ _) (le_trans (le_max_left _ _) (le_max_left _ _)))))

/-- The greatest corner elevation of a cell of the grid is the elevation of a
corner of the grid. -/
theorem cellMax_attained (M : MathOps K) (fn : String) (i j : Nat)
    (hi : i < cells) (hj : j < cells) :
    ∃ a b : Int, InGrid a b ∧ cellMax M fn i j = elev M fn a b := by
  have h00 : InGrid i j := by
    simp only [InGrid, cells] at *
    omega
  have h01 : InGrid i ((j : Int) + 1) := by
    simp only [InGrid, cells] at *
    omega
  have h10 : InGrid ((i : Int) + 1) j := by
    simp only [InGrid, cells] at *
    omega
  have h11 : InGrid ((i : Int) + 1) ((j : Int) + 1) := by
    simp only [InGrid, cells] at *
    omega
  unfold cellMax
  rcases max_choice (max (max (elev M fn i j) (elev M fn i (j + 1))) (elev M fn (i + 1) j))
    (elev M fn (i + 1) (j + 1)) with h | h
  · rw [h]
    rcases max_choice (max (elev M fn i j) (elev M fn i (j + 1))) (elev M fn (i + 1) j)
      with h' | h'
    · rw [h']
      rcases max_choice (elev M fn i j) (elev M fn i (j + 1)) with h'' | h''
      · exact ⟨_, _, h00, h''⟩
      · exact ⟨_, _, h01, h''⟩
    · exact ⟨_, _, h10, h'⟩
  · exact ⟨_, _, h11, h⟩

theorem corner_fst (M : MathOps K) (fn : String) (i j : Int) :
    (corner M fn i j).1 =
      F64.fin (300 + (coord K i - coord K j) * M.cos (M.pi / 6) * 10) := by
  have hxy : xyscale K = 10 := by
    simp only [xyscale, xyrange, width]
    norm_num
  have hw : ((width / 2 : Int) : K) = 300 := by
    simp only [width]
    norm_num
  simp only [corner, getXyz_x, getXyz_y, cos30, angle, MathOps.Cos, F64.sub_fin,
    F64.add_fin, F64.mul_fin, hxy, hw]

theorem testOps_exp_mono (x y : ℚ) (hx : 0 ≤ x) (hxy : x ≤ y) :
    testOps.exp x ≤ testOps.exp y := by
  show 1 + x + x ^ 2 / 2 ≤ 1 + y + y ^ 2 / 2
  nlinarith [mul_nonneg hx (sub_nonneg.mpr hxy), sq_nonneg (y - x)]

theorem testOps_cos30 : -1 ≤ testOps.cos (testOps.pi / 6) ∧ testOps.cos (testOps.pi / 6) ≤ 1 := by
  norm_num [testOps]

/-! ### Requests in progress -/

theorem polygonLoops_eq [FloorRing K] (M : MathOps K) (fn : String) (z1 z2 : F64 K)
    (w : List String) :
    forLoop cells (fun i w1 => forLoop cells (fun j w2 => svgCell M fn z1 z2 i j w2) w1) w =
      w ++ (List.range (cells * cells)).map fun (k : Nat) =>
        spec_polygon M fn z1 z2 ((k / cells : Nat) : Int) ((k % cells : Nat) : Int) := by
  simp only [svgCell_eq]
  rw [forLoop_append_grid cells cells (fun i j => spec_polygon M fn z1 z2 i j)]

theorem goroutine_step_other [FloorRing K] (M : MathOps K) (g : String) (t : Goroutine K)
    (h : t.pc ≠ 0) :
    (t.step M g).1 = g ∧ (t.step M g).2.pc ≠ 0 := by
  obtain ⟨sel, pc, z, w⟩ := t
  rcases pc with _ | _ | _ | _ | _ | n
  · exact absurd rfl h
  all_goals exact ⟨rfl, by simp [Goroutine.step]⟩

theorem undisturbed_step [FloorRing K] (M : MathOps K) (sel : String) (s : World K)
    (pickA : Bool) (h : Undisturbed M sel s) : Undisturbed M sel (s.step M pickA) := by
  obtain ⟨hb, hsel, hA⟩ := h
  cases pickA
  · obtain ⟨h1, h2⟩ := goroutine_step_other M s.funcName s.b hb
    refine ⟨by simpa [World.step] using h2, by simpa [World.step] using hsel, ?_⟩
    simpa [World.step, h1] using hA
  · obtain ⟨g, ⟨asel, pc, z, w⟩, b⟩ := s
    simp only at hsel hA hb
    subst hsel
    refine ⟨by simpa [World.step] using hb, ?_, ?_⟩
    · rcases pc with _ | _ | _ | _ | _ | n <;> simp [World.step, Goroutine.step]
    · rcases hA with ⟨rfl, rfl⟩ | ⟨rfl, rfl, rfl⟩ | ⟨rfl, rfl, rfl⟩ | ⟨rfl, rfl, rfl, rfl⟩ |
        ⟨rfl, hw⟩ | ⟨rfl, hw⟩
      · simp [World.step, Goroutine.step]
      · simp [World.step, Goroutine.step]
      · simp [World.step, Goroutine.step]
      · refine Or.inr (Or.inr (Or.inr (Or.inr (Or.inl ⟨rfl, ?_⟩))))
        simp only [World.step, Goroutine.step, if_true]
        rfl
      · simp [World.step, Goroutine.step, hw]
      · simp [World.step, Goroutine.step, hw]

theorem undisturbed_run [FloorRing K] (M : MathOps K) (sel : String) (schedule : List Bool)
    (s : World K) (h : Undisturbed M sel s) : Undisturbed M sel (World.run M schedule s) := by
  induction schedule generalizing s with
  | nil => exact h
  | cons x xs ih => exact ih (s.step M x) (undisturbed_step M sel s x h)

theorem run_pc [FloorRing K] (M : MathOps K) (schedule : List Bool) (s : World K)
    (h : s.a.pc ≤ 5) :
    (World.run M schedule s).a.pc = min 5 (s.a.pc + schedule.count true) := by
  induction schedule generalizing s with
  | nil => simp [World.run, h]
  | cons x xs ih =>
    obtain ⟨g, ⟨asel, pc, z, w⟩, b⟩ := s
    simp only at h
    cases x
    · have := ih (World.step M ⟨g, ⟨asel, pc, z, w⟩, b⟩ false) (by simpa [World.step] using h)
      simpa [World.run, World.step] using this
    · have hstep : (World.step M ⟨g, ⟨asel, pc, z, w⟩, b⟩ true).a.pc = min 5 (pc + 1) := by
        rcases pc with _ | _ | _ | _ | _ | n
        · rfl
        · rfl
        · rfl
        · rfl
        · rfl
        · have : n = 0 := by omega
          subst this
          rfl
      have h5 : (World.step M ⟨g, ⟨asel, pc, z, w⟩, b⟩ true).a.pc ≤ 5 := by
        rw [hstep]
        exact min_le_left _ _
      have := ih _ h5
      rw [hstep] at this
      simp only [World.run, List.foldl_cons, List.count_cons_self] at this ⊢
      rw [this]
      omega

omit [LinearOrderedField K] in
theorem document_getElem (h t : String) (n : Nat) (g : Nat → String) (k : Nat) (hk : k < n) :
    ([h] ++ (List.range n).map g ++ [t])[1 + k]? = some (g k) := by
  rw [List.append_assoc, List.getElem?_append_right (by simp)]
  simp only [List.length_singleton, Nat.add_sub_cancel_left]
  rw [List.getElem?_append_left (by simpa using hk), List.getElem?_map, List.getElem?_range hk]
  rfl

/-- The body that request `a` has written when request `b` assigns `funcName`
between the `min_max()` of `a` and its polygon loops. -/
theorem interleaved_body [FloorRing K] (M : MathOps K) (selA selB : String) (g : String) :
    (World.run M [true, true, true, false, true, true]
        ⟨g, Goroutine.start selA, Goroutine.start selB⟩).a.w =
      [svgHeader] ++ ((List.range (cells * cells)).map fun (k : Nat) =>
          spec_polygon M selB (min_max M selA).1 (min_max M selA).2
            ((k / cells : Nat) : Int) ((k % cells : Nat) : Int)) ++ ["</svg>\n"] := by
  rw [← polygonLoops_eq]
  simp only [World.run, List.foldl_cons, List.foldl_nil, World.step, Goroutine.step,
    Goroutine.start, if_true, if_false, Bool.false_eq_true, List.nil_append]

theorem polygon_eggbox_ne_saddle :
    spec_polygon testOps "eggbox" (F64.fin (-225 / 289)) (F64.fin (9 / 25)) 50 50 ≠
      spec_polygon testOps "saddle" (F64.fin (-225 / 289)) (F64.fin (9 / 25)) 50 50 := by
  decide!

/-- The body of request `a` when it runs its five statements with no step of
the other request in between. -/
theorem solo_body [FloorRing K] (M : MathOps K) (selA : String) (g : String)
    (b : Goroutine K) :
    (World.run M [true, true, true, true, true] ⟨g, Goroutine.start selA, b⟩).a.w =
      svg M selA := by
  simp only [World.run, List.foldl_cons, List.foldl_nil, World.step, Goroutine.step,
    Goroutine.start, if_true, List.nil_append, svg]

/-! ### The bytes of a document -/

omit [LinearOrderedField K] in
theorem join_document_data (h t : String) (n : Nat) (g : Nat → String) :
    ∃ rest : List Char,
      (String.join ([h] ++ (List.range (n + 1)).map g ++ [t])).data =
        h.data ++ ((g 0).data ++ rest) := by
  refine ⟨(((List.range n).map Nat.succ).map fun k => (g k).data).flatten ++ t.data, ?_⟩
  rw [String.data_join, List.range_succ_eq_map]
  simp [List.map_map, Function.comp_def]

omit [LinearOrderedField K] in
/-- Two documents whose first polygons start with different texts of the same
length differ as byte strings. -/
theorem join_document_ne (h t : String) (n : Nat) (g1 g2 : Nat → String)
    (a1 a2 b1 b2 : String) (e1 : g1 0 = a1 ++ b1) (e2 : g2 0 = a2 ++ b2)
    (hlen : a1.data.length = a2.data.length) (hne : a1 ≠ a2) :
    String.join ([h] ++ (List.range (n + 1)).map g1 ++ [t]) ≠
      String.join ([h] ++ (List.range (n + 1)).map g2 ++ [t]) := by
  intro heq
  obtain ⟨r1, h1⟩ := join_document_data h t n g1
  obtain ⟨r2, h2⟩ := join_document_data h t n g2
  have hd := congrArg String.data heq
  rw [h1, h2, e1, e2, String.data_append, String.data_append, List.append_assoc,
    List.append_assoc] at hd
  exact hne (String.ext (List.append_inj_left (List.append_cancel_left hd) hlen))

theorem spec_polygon_stroke [FloorRing K] (M : MathOps K) (fn : String) (z1 z2 : F64 K)
    (i j : Int) :
    spec_polygon M fn z1 z2 i j =
      ("<polygon style='stroke: " ++ color M fn i j z1 z2) ++
        (";' points='" ++
          (spec_points M [corner M fn (i + 1) j, corner M fn i j, corner M fn i (j + 1),
            corner M fn (i + 1) (j + 1)] ++ "'/>\n")) := by
  simp only [spec_polygon, String.append_assoc]

theorem color_saddle_origin_cell :
    color testOps "saddle" 0 0 (F64.fin (-225 / 289)) (F64.fin (9 / 25)) = "#0000ba" := by
  decide!

theorem color_eggbox_origin_cell :
    color testOps "eggbox" 0 0 (F64.fin (-225 / 289)) (F64.fin (9 / 25)) = "#0000ff" := by
  decide!

end Facts

/-! ## Claims -/

section Claims

variable {K : Type} [LinearOrderedField K]

/-- C1. For every selector and every corner index pair `(i, j)` with
`0 <= i, j <= cells`, the pair `(zmin, zmax)` that `min_max` returns satisfies
`zmin <= z(i, j)` and `z(i, j) <= zmax` (Go comparisons on `float64`), where
`z(i, j)` is the third component of `getXyz(i, j)`. -/
theorem min_max_bounds_every_corner (M : MathOps K) (funcName : String) (i j : Int)
    (hi0 : 0 ≤ i) (hi : i ≤ cells) (hj0 : 0 ≤ j) (hj : j ≤ cells) :
    F64.le (min_max M funcName).1 (getXyz M funcName i j).2.2 = true ∧
    F64.le (getXyz M funcName i j).2.2 (min_max M funcName).2 = true :=
  gridLoop_reaches M funcName i j hi0 hi hj0 hj (F64.nan, F64.nan)

/-- C1 at the selector "f" and the centre corner `(50, 50)` of the rational
test instance. -/
theorem min_max_bounds_every_corner_witness :
    (0 : Int) ≤ 50 ∧ (50 : Int) ≤ cells ∧
    F64.le (min_max testOps "f").1 (getXyz testOps "f" 50 50).2.2 = true ∧
    F64.le (getXyz testOps "f" 50 50).2.2 (min_max testOps "f").2 = true :=
  ⟨by decide, by decide,
    min_max_bounds_every_corner testOps "f" 50 50 (by decide) (by decide) (by decide) (by decide)⟩

/-- C2. For every selector, every cell `(i, j)` and every pair of numbers
`(zmin, zmax)` passed to `color`, the integers that `color` formats into the
colour string, `int(red)` in the red branch and `int(blue)` in the blue
branch, lie in `0..255`.  `math.Exp` is taken positive on arguments `>= 0`. -/
theorem color_channel_in_byte_range [FloorRing K] (M : MathOps K) (funcName : String)
    (i j : Int) (zmin zmax : K) (hexp : ∀ x : K, 0 ≤ x → 0 < M.exp x) :
    (0 ≤ F64.toInt (intensity M (cellExtrema M funcName i j).2 (F64.fin zmax)) ∧
      F64.toInt (intensity M (cellExtrema M funcName i j).2 (F64.fin zmax)) ≤ 255) ∧
    (0 ≤ F64.toInt (intensity M (cellExtrema M funcName i j).1 (F64.fin zmin)) ∧
      F64.toInt (intensity M (cellExtrema M funcName i j).1 (F64.fin zmin)) ≤ 255) ∧
    color M funcName i j (F64.fin zmin) (F64.fin zmax) =
      if F64.gt (F64.abs (cellExtrema M funcName i j).2)
          (F64.abs (cellExtrema M funcName i j).1) = true then
        "#" ++ fmt02x (F64.toInt (intensity M (cellExtrema M funcName i j).2 (F64.fin zmax)))
          ++ "0000"
      else
        "#0000" ++
          fmt02x (F64.toInt (intensity M (cellExtrema M funcName i j).1 (F64.fin zmin))) := by
  refine ⟨?_, ?_, rfl⟩
  · rw [cellExtrema_eq]
    exact toInt_intensity_range M hexp _ _
  · rw [cellExtrema_eq]
    exact toInt_intensity_range M hexp _ _

/-- C2 on the rational test instance: selector "saddle", cell `(3, 4)`, global
extrema `(-1, 1)`. -/
theorem color_channel_in_byte_range_witness :
    (∀ x : ℚ, 0 ≤ x → 0 < testOps.exp x) ∧
    (0 ≤ F64.toInt (intensity testOps (cellExtrema testOps "saddle" 3 4).2 (F64.fin 1)) ∧
      F64.toInt (intensity testOps (cellExtrema testOps "saddle" 3 4).2 (F64.fin 1)) ≤ 255) :=
  ⟨testOps_exp_pos,
    (color_channel_in_byte_range testOps "saddle" 3 4 (-1) 1 testOps_exp_pos).1⟩

/-- C3. `color` implements the two-branch algorithm of the specification:
with `(cmin, cmax)` the least and greatest elevation over the four corners
`(i, j)`, `(i, j+1)`, `(i+1, j)`, `(i+1, j+1)`, it returns `spec_color` of
`(cmin, cmax, zmin, zmax)`: red `#RR0000` when `|cmax| > |cmin|`, blue
`#0000BB` otherwise (ties included), the channel being the two-digit
lower-case hexadecimal floor of the clamped intensity.  `math.Exp` is taken
positive on arguments `>= 0`. -/
theorem color_refines_spec [FloorRing K] (M : MathOps K) (funcName : String)
    (i j : Int) (zmin zmax : K) (hexp : ∀ x : K, 0 ≤ x → 0 < M.exp x) :
    color M funcName i j (F64.fin zmin) (F64.fin zmax) =
      spec_color M (cellMin M funcName i j) (cellMax M funcName i j) zmin zmax := by
  have hr := toInt_intensity_range M hexp (cellMax M funcName i j) zmax
  have hb := toInt_intensity_range M hexp (cellMin M funcName i j) zmin
  unfold color spec_color
  rw [cellExtrema_eq]
  simp only [F64.abs_fin, F64.gt_fin, decide_eq_true_eq, gt_iff_lt]
  split_ifs with h
  · rw [fmt02x_eq_spec_hex2 _ hr.1 hr.2, toInt_intensity M hexp]
  · rw [fmt02x_eq_spec_hex2 _ hb.1 hb.2, toInt_intensity M hexp]

/-- C3 on the rational test instance: selector "eggbox", cell `(0, 0)`, global
extrema `(-1/2, 1/2)`. -/
theorem color_refines_spec_witness :
    (∀ x : ℚ, 0 ≤ x → 0 < testOps.exp x) ∧
    color testOps "eggbox" 0 0 (F64.fin (-1 / 2)) (F64.fin (1 / 2)) =
      spec_color testOps (cellMin testOps "eggbox" 0 0) (cellMax testOps "eggbox" 0 0)
        (-1 / 2) (1 / 2) :=
  ⟨testOps_exp_pos, color_refines_spec testOps "eggbox" 0 0 (-1 / 2) (1 / 2) testOps_exp_pos⟩

/-- C4. The ripple function `f` at `(0, 0)` returns exactly 0: the quotient
`sin(0)/0` is NaN or infinite and `safeValue` replaces it; consequently
`getXyz(50, 50)` under selector "f" is `(0, 0, 0)`.  `math.Hypot(0, 0)` is
taken to be 0. -/
theorem f_origin_is_zero (M : MathOps K) (hhyp : M.hypot 0 0 = 0) :
    ((F64.div (M.Sin (M.Hypot (F64.fin 0) (F64.fin 0))) (M.Hypot (F64.fin 0) (F64.fin 0))).isNaN
        || (F64.div (M.Sin (M.Hypot (F64.fin 0) (F64.fin 0)))
              (M.Hypot (F64.fin 0) (F64.fin 0))).isInf) = true ∧
    f M (F64.fin 0) (F64.fin 0) = F64.fin 0 ∧
    getXyz M "f" 50 50 = (F64.fin 0, F64.fin 0, F64.fin 0) := by
  have hdiv : ∀ a : K, ((F64.div (F64.fin a) (F64.fin 0)).isNaN
      || (F64.div (F64.fin a) (F64.fin 0)).isInf) = true := by
    intro a
    simp only [F64.div, if_true, F64.infTimes]
    split_ifs <;> rfl
  have hf0 : f M (F64.fin 0) (F64.fin 0) = F64.fin 0 := by
    simp only [f, MathOps.Hypot, MathOps.Sin, hhyp, safeValue, hdiv, if_true]
  have hc : coord K 50 = 0 := by
    simp only [coord, xyrange, cells]
    norm_num
  refine ⟨?_, hf0, ?_⟩
  · simp only [MathOps.Hypot, MathOps.Sin, hhyp, hdiv]
  · refine Prod.ext ?_ (Prod.ext ?_ ?_)
    · rw [getXyz_x, hc]
    · rw [getXyz_y, hc]
    · rw [getXyz_z, if_pos rfl, hc, hf0]

/-- C4 on the rational test instance. -/
theorem f_origin_is_zero_witness :
    testOps.hypot 0 0 = 0 ∧ f testOps (F64.fin 0) (F64.fin 0) = F64.fin 0 ∧
    getXyz testOps "f" 50 50 = (F64.fin 0, F64.fin 0, F64.fin 0) :=
  ⟨testOps_hypot_zero, (f_origin_is_zero testOps testOps_hypot_zero).2⟩

/-- C5. For every selector other than "f", "eggbox" and "saddle" and every
corner index pair `(i, j)`, `getXyz(i, j)` returns the elevation 0 (and the
domain point of the corner): a flat plane, with no failure path. -/
theorem getXyz_unknown_selector_flat (M : MathOps K) (funcName : String) (i j : Int)
    (hf : funcName ≠ "f") (he : funcName ≠ "eggbox") (hs : funcName ≠ "saddle") :
    getXyz M funcName i j = (F64.fin (coord K i), F64.fin (coord K j), F64.fin 0) :=
  Prod.ext (getXyz_x M funcName i j)
    (Prod.ext (getXyz_y M funcName i j) (getXyz_z_unknown M funcName hf he hs i j))

/-- C5 on the rational test instance: selector "plane", corner `(7, 93)`. -/
theorem getXyz_unknown_selector_flat_witness :
    "plane" ≠ "f" ∧ "plane" ≠ "eggbox" ∧ "plane" ≠ "saddle" ∧
    getXyz testOps "plane" 7 93 = (F64.fin (coord ℚ 7), F64.fin (coord ℚ 93), F64.fin 0) :=
  ⟨by decide, by decide, by decide,
    getXyz_unknown_selector_flat testOps "plane" 7 93 (by decide) (by decide) (by decide)⟩

/-- C6. Under a selector other than "f", "eggbox" and "saddle", `min_max`
returns `(0, 0)` and for every cell `(i, j)` the call `color(i, j, 0, 0)`
takes the blue branch and returns "#0000ff".  `math.Exp(0)` is taken
non-zero. -/
theorem unknown_selector_all_blue [FloorRing K] (M : MathOps K) (funcName : String)
    (i j : Int) (hf : funcName ≠ "f") (he : funcName ≠ "eggbox") (hs : funcName ≠ "saddle")
    (hexp : M.exp 0 ≠ 0) :
    min_max M funcName = (F64.fin 0, F64.fin 0) ∧
    F64.gt (F64.abs (cellExtrema M funcName i j).2) (F64.abs (cellExtrema M funcName i j).1)
      = false ∧
    color M funcName i j (min_max M funcName).1 (min_max M funcName).2 = "#0000ff" := by
  have hce : cellExtrema M funcName i j = (F64.fin 0, F64.fin 0) :=
    cellLoop_unknown M funcName hf he hs i j _ (Or.inl rfl)
  have hint : intensity M (F64.fin 0) (F64.fin 0) = F64.fin 255 := by
    simp [intensity, MathOps.Exp, F64.div_fin _ _ hexp, div_self hexp]
  have h255 : F64.toInt (F64.fin (255 : K)) = 255 := by
    have h : (0 : K) ≤ 255 := by norm_num
    rw [F64.toInt, if_pos h]
    exact Int.floor_ofNat 255
  refine ⟨min_max_unknown M funcName hf he hs, ?_, ?_⟩
  · rw [hce]
    simp
  · rw [min_max_unknown M funcName hf he hs]
    unfold color
    rw [hce]
    simp only [F64.abs_fin, F64.gt_fin, abs_zero, lt_self_iff_false, decide_False,
      Bool.false_eq_true, if_false, hint, h255]
    rfl

/-- C6 on the rational test instance: selector "plane", cell `(99, 0)`. -/
theorem unknown_selector_all_blue_witness :
    "plane" ≠ "f" ∧ "plane" ≠ "eggbox" ∧ "plane" ≠ "saddle" ∧ testOps.exp 0 ≠ 0 ∧
    min_max testOps "plane" = (F64.fin 0, F64.fin 0) ∧
    color testOps "plane" 99 0 (min_max testOps "plane").1 (min_max testOps "plane").2
      = "#0000ff" :=
  ⟨by decide, by decide, by decide, testOps_exp_zero,
    (unknown_selector_all_blue testOps "plane" 99 0 (by decide) (by decide) (by decide)
      testOps_exp_zero).1,
    (unknown_selector_all_blue testOps "plane" 99 0 (by decide) (by decide) (by decide)
      testOps_exp_zero).2.2⟩

/-- C7. For every cell `(i, j)` with `0 <= i, j < cells`, the polygon element
that `svg` writes for that cell (write number `1 + i * cells + j`, the header
being write number 0) lists the projected points in the order `corner(i+1, j)`,
`corner(i, j)`, `corner(i, j+1)`, `corner(i+1, j+1)`. -/
theorem svg_polygon_corner_order [FloorRing K] (M : MathOps K) (funcName : String)
    (i j : Nat) (hi : i < cells) (hj : j < cells) :
    (svg M funcName)[1 + i * cells + j]? = some
      ("<polygon style='stroke: " ++
        color M funcName i j (min_max M funcName).1 (min_max M funcName).2 ++
        ";' points='" ++
        spec_points M [corner M funcName (i + 1) j, corner M funcName i j,
          corner M funcName i (j + 1), corner M funcName (i + 1) (j + 1)] ++ "'/>\n") := by
  have hlt : i * cells + j < cells * cells := by
    simp only [cells] at *
    omega
  have hdiv : (i * cells + j) / cells = i := by
    simp only [cells] at *
    omega
  have hmod : (i * cells + j) % cells = j := by
    simp only [cells] at *
    omega
  rw [svg_eq, List.append_assoc, Nat.add_assoc, List.getElem?_append_right (by simp)]
  simp only [List.length_singleton, Nat.add_sub_cancel_left]
  rw [List.getElem?_append_left (by simpa using hlt), List.getElem?_map,
    List.getElem?_range hlt]
  simp only [Option.map_some', hdiv, hmod, spec_polygon]

/-- C7 on the rational test instance: selector "eggbox", cell `(2, 3)`, write
number 204. -/
theorem svg_polygon_corner_order_witness :
    2 < cells ∧ 3 < cells ∧
    (svg testOps "eggbox")[1 + 2 * cells + 3]? = some
      ("<polygon style='stroke: " ++
        color testOps "eggbox" (2 : Nat) (3 : Nat) (min_max testOps "eggbox").1
          (min_max testOps "eggbox").2 ++
        ";' points='" ++
        spec_points testOps [corner testOps "eggbox" ((2 : Nat) + 1) (3 : Nat),
          corner testOps "eggbox" (2 : Nat) (3 : Nat),
          corner testOps "eggbox" (2 : Nat) ((3 : Nat) + 1),
          corner testOps "eggbox" ((2 : Nat) + 1) ((3 : Nat) + 1)] ++ "'/>\n") :=
  ⟨by decide, by decide, svg_polygon_corner_order testOps "eggbox" 2 3 (by decide) (by decide)⟩

/-- C8. For every selector, the document written by `svg` is the header
declaring `width='600'` and `height='320'`, then exactly
`cells * cells = 10000` polygon elements, the `k`-th of which (from 0) is the
polygon of cell `(k / 100, k % 100)`, then the closing `</svg>` tag. -/
theorem svg_document_structure [FloorRing K] (M : MathOps K) (funcName : String) :
    ∃ polygons : List String,
      svg M funcName =
        ["<svg xmlns='http://www.w3.org/2000/svg' " ++
          "style='stroke: grey; fill: white; stroke-width: 0.7' " ++
          "width='600' height='320'>"] ++ polygons ++ ["</svg>\n"] ∧
      polygons.length = 10000 ∧
      ∀ k : Nat, k < 10000 →
        polygons[k]? = some (spec_polygon M funcName (min_max M funcName).1
          (min_max M funcName).2 ((k / 100 : Nat) : Int) ((k % 100 : Nat) : Int)) := by
  have hheader : svgHeader = "<svg xmlns='http://www.w3.org/2000/svg' " ++
      "style='stroke: grey; fill: white; stroke-width: 0.7' " ++
      "width='600' height='320'>" := by decide
  refine ⟨_, by rw [svg_eq, hheader], by simp [cells], fun k hk => ?_⟩
  have hk2 : k < cells * cells := by simpa [cells] using hk
  rw [List.getElem?_map, List.getElem?_range hk2]
  rfl

/-- C9. For every corner index pair `(i, j)`, with `(x, y, z) = getXyz(i, j)`,
`corner(i, j)` is the isometric projection
`sx = 300 + (x - y) * cos(pi/6) * 10`,
`sy = 160 + (x + y) * sin(pi/6) * 10 - z * 128`. -/
theorem corner_is_isometric_projection (M : MathOps K) (funcName : String) (i j : Int) :
    getXyz M funcName i j =
      (F64.fin (coord K i), F64.fin (coord K j), F64.fin (elev M funcName i j)) ∧
    corner M funcName i j =
      (F64.fin (300 + (coord K i - coord K j) * M.cos (M.pi / 6) * 10),
       F64.fin (160 + (coord K i + coord K j) * M.sin (M.pi / 6) * 10
          - elev M funcName i j * 128)) := by
  have hxy : xyscale K = 10 := by
    simp only [xyscale, xyrange, width]
    norm_num
  have hz : zscale K = 128 := by
    simp only [zscale, height]
    norm_num
  have hw : ((width / 2 : Int) : K) = 300 := by
    simp only [width]
    norm_num
  have hh : ((height / 2 : Int) : K) = 160 := by
    simp only [height]
    norm_num
  have hg : getXyz M funcName i j =
      (F64.fin (coord K i), F64.fin (coord K j), F64.fin (elev M funcName i j)) :=
    Prod.ext (getXyz_x M funcName i j)
      (Prod.ext (getXyz_y M funcName i j) (getXyz_elev M funcName i j))
  refine ⟨hg, ?_⟩
  simp only [corner, hg, cos30, sin30, angle, MathOps.Cos, MathOps.Sin, F64.sub_fin,
    F64.add_fin, F64.mul_fin, hxy, hz, hw, hh]

/-- C10. For every corner index pair `(i, j)` with `0 <= i, j <= cells`, the
domain point that `getXyz` returns is `x = 30 * (i/100 - 0.5)`,
`y = 30 * (j/100 - 0.5)` and lies in `[-R, +R]` with `R = xyrange = 30`. -/
theorem getXyz_domain_point_in_range (M : MathOps K) (funcName : String) (i j : Int)
    (hi0 : 0 ≤ i) (hi : i ≤ cells) (hj0 : 0 ≤ j) (hj : j ≤ cells) :
    ∃ x y : K,
      (getXyz M funcName i j).1 = F64.fin x ∧ (getXyz M funcName i j).2.1 = F64.fin y ∧
      x = 30 * ((i : K) / 100 - 0.5) ∧ y = 30 * ((j : K) / 100 - 0.5) ∧
      -xyrange K ≤ x ∧ x ≤ xyrange K ∧ -xyrange K ≤ y ∧ y ≤ xyrange K ∧ xyrange K = 30 := by
  have hr : xyrange K = 30 := by
    simp only [xyrange]
    norm_num
  have hc : ∀ a : Int, coord K a = 30 * ((a : K) / 100 - 0.5) := by
    intro a
    simp only [coord, hr, cells]
    norm_num
  have hb : ∀ a : Int, 0 ≤ a → a ≤ cells →
      -30 ≤ 30 * ((a : K) / 100 - 0.5) ∧ 30 * ((a : K) / 100 - 0.5) ≤ (30 : K) := by
    intro a h0 h1
    have h0K : (0 : K) ≤ (a : K) := by exact_mod_cast h0
    have h1K : (a : K) ≤ 100 := by exact_mod_cast h1
    constructor <;> norm_num <;> linarith
  refine ⟨_, _, getXyz_x M funcName i j, getXyz_y M funcName i j, hc i, hc j, ?_⟩
  rw [hr, hc i, hc j]
  exact ⟨(hb i hi0 hi).1, (hb i hi0 hi).2, (hb j hj0 hj).1, (hb j hj0 hj).2, rfl⟩

/-- C10 on the rational test instance: selector "f", the far corner
`(100, 0)`. -/
theorem getXyz_domain_point_in_range_witness :
    (0 : Int) ≤ 100 ∧ (100 : Int) ≤ cells ∧ (0 : Int) ≤ 0 ∧ (0 : Int) ≤ cells ∧
    ∃ x y : ℚ,
      (getXyz testOps "f" 100 0).1 = F64.fin x ∧ (getXyz testOps "f" 100 0).2.1 = F64.fin y ∧
      x = 30 * (((100 : Int) : ℚ) / 100 - 0.5) ∧ y = 30 * (((0 : Int) : ℚ) / 100 - 0.5) ∧
      -xyrange ℚ ≤ x ∧ x ≤ xyrange ℚ ∧ -xyrange ℚ ≤ y ∧ y ≤ xyrange ℚ ∧ xyrange ℚ = 30 :=
  ⟨by decide, by decide, by decide, by decide,
    getXyz_domain_point_in_range testOps "f" 100 0 (by decide) (by decide) (by decide)
      (by decide)⟩

/-- C11. For all numbers `x` and `y`, `eggbox(x, y) = eggbox(-x, -y)` and
`eggbox(x, y) = eggbox(x, -y)`.  `math.Cos` is taken even. -/
theorem eggbox_symmetric (M : MathOps K) (x y : K) (hcos : ∀ t : K, M.cos (-t) = M.cos t) :
    eggbox M (F64.fin x) (F64.fin y) = eggbox M (F64.fin (-x)) (F64.fin (-y)) ∧
    eggbox M (F64.fin x) (F64.fin y) = eggbox M (F64.fin x) (F64.fin (-y)) := by
  simp only [eggbox_fin, hcos, and_self]

/-- C11 on the rational test instance at `(3, -7/2)`. -/
theorem eggbox_symmetric_witness :
    (∀ t : ℚ, testOps.cos (-t) = testOps.cos t) ∧
    eggbox testOps (F64.fin 3) (F64.fin (-7 / 2)) =
      eggbox testOps (F64.fin (-3)) (F64.fin (-(-7 / 2))) ∧
    eggbox testOps (F64.fin 3) (F64.fin (-7 / 2)) =
      eggbox testOps (F64.fin 3) (F64.fin (-(-7 / 2))) :=
  ⟨testOps_cos_neg, eggbox_symmetric testOps 3 (-7 / 2) testOps_cos_neg⟩

/-- C12. For all numbers `x` and `y`, `saddle(0, y) = y^2 / 625` and
`saddle(x, 0) = -(x^2) / 289`. -/
theorem saddle_on_axes (x y : K) :
    saddle (F64.fin 0) (F64.fin y) = F64.fin (y ^ 2 / 625) ∧
    saddle (F64.fin x) (F64.fin 0) = F64.fin (-(x ^ 2) / 289) := by
  constructor
  · rw [saddle_fin]
    congr 1
    norm_num
    ring
  · rw [saddle_fin]
    congr 1
    norm_num
    ring

/-- C13. `safeValue` returns 0 at NaN, `+Inf` and `-Inf` and its argument
unchanged otherwise, and for every selector and every corner index pair the
elevation that `getXyz` returns is neither NaN nor infinite. -/
theorem elevation_always_finite (M : MathOps K) :
    safeValue (F64.nan : F64 K) = F64.fin 0 ∧
    safeValue (F64.pinf : F64 K) = F64.fin 0 ∧
    safeValue (F64.ninf : F64 K) = F64.fin 0 ∧
    (∀ v : K, safeValue (F64.fin v) = F64.fin v) ∧
    ∀ (funcName : String) (i j : Int),
      (getXyz M funcName i j).2.2.isNaN = false ∧ (getXyz M funcName i j).2.2.isInf = false := by
  refine ⟨rfl, rfl, rfl, fun v => rfl, fun fn i j => ?_⟩
  rw [getXyz_elev]
  exact ⟨rfl, rfl⟩

/-- C16. Revisiting shared corners does not change the result: for every
selector, the pair that `min_max` computes by visiting the four corners of
each of the `cells * cells` cells equals the minimum and the maximum of the
elevation over the `(cells + 1)^2` corner index pairs, each taken once. -/
theorem min_max_refines_spec (M : MathOps K) (funcName : String) :
    min_max M funcName =
      (F64.fin (spec_min_max M funcName).1, F64.fin (spec_min_max M funcName).2) ∧
    gridCorners.length = (cells + 1) ^ 2 ∧ gridCorners.Nodup := by
  obtain ⟨lo, hi, hmm, hbound, ⟨i, j, hij, hlo⟩, ⟨i', j', hij', hhi⟩⟩ :=
    min_max_char M funcName
  obtain ⟨sbound, ⟨a, b, hab, hslo⟩, ⟨a', b', hab', hshi⟩⟩ := spec_min_max_char M funcName
  have h1 : lo = (spec_min_max M funcName).1 :=
    le_antisymm (hslo ▸ (hbound a b hab).1) (hlo ▸ (sbound i j hij).1)
  have h2 : hi = (spec_min_max M funcName).2 :=
    le_antisymm (hhi ▸ (sbound i' j' hij').2) (hshi ▸ (hbound a' b' hab').2)
  refine ⟨by rw [hmm, h1, h2], ?_, ?_⟩
  · show (List.range (cells + 1) ×ˢ List.range (cells + 1)).length = (cells + 1) ^ 2
    rw [List.length_product, List.length_range, sq]
  · exact List.Nodup.product (List.nodup_range _) (List.nodup_range _)

/-- C17. For every selector, the values `(zmin, zmax)` that `min_max` returns
are attained and ordered: neither is NaN, each is the elevation of some corner
`(i, j)` with `0 <= i, j <= cells`, and `zmin <= zmax`. -/
theorem min_max_attained_and_ordered (M : MathOps K) (funcName : String) :
    (min_max M funcName).1.isNaN = false ∧ (min_max M funcName).2.isNaN = false ∧
    (∃ i j : Int, (0 ≤ i ∧ i ≤ cells ∧ 0 ≤ j ∧ j ≤ cells) ∧
      (getXyz M funcName i j).2.2 = (min_max M funcName).1) ∧
    (∃ i j : Int, (0 ≤ i ∧ i ≤ cells ∧ 0 ≤ j ∧ j ≤ cells) ∧
      (getXyz M funcName i j).2.2 = (min_max M funcName).2) ∧
    F64.le (min_max M funcName).1 (min_max M funcName).2 = true := by
  obtain ⟨lo, hi, hmm, hbound, ⟨i, j, hij, hlo⟩, ⟨i', j', hij', hhi⟩⟩ :=
    min_max_char M funcName
  have h00 : InGrid 0 0 := ⟨le_refl 0, by decide, le_refl 0, by decide⟩
  rw [hmm]
  refine ⟨rfl, rfl, ⟨i, j, hij, ?_⟩, ⟨i', j', hij', ?_⟩, ?_⟩
  · rw [getXyz_elev, hlo]
  · rw [getXyz_elev, hhi]
  · simpa using le_trans (hbound 0 0 h00).1 (hbound 0 0 h00).2

/-- C18. For every selector and every cell `(i, j)` with `0 <= i, j < cells`,
when `color` is called with the extrema that `min_max` returns and takes the
red branch (`|cmax| > |cmin|`), the cell maximum `cmax` is strictly positive
and `exp(|cmax|) / exp(|zmax|) * 255` is already `<= 255`: the test
`red > 255` is false.  `math.Exp` is taken positive and non-decreasing on
arguments `>= 0`. -/
theorem red_clamp_never_triggers (M : MathOps K) (funcName : String) (i j : Nat)
    (hi : i < cells) (hj : j < cells)
    (hpos : ∀ x : K, 0 ≤ x → 0 < M.exp x)
    (hmono : ∀ x y : K, 0 ≤ x → x ≤ y → M.exp x ≤ M.exp y)
    (hred : F64.gt (F64.abs (cellExtrema M funcName i j).2)
      (F64.abs (cellExtrema M funcName i j).1) = true) :
    F64.gt (cellExtrema M funcName i j).2 (F64.fin 0) = true ∧
    F64.le (F64.mul (F64.div (M.Exp (F64.abs (cellExtrema M funcName i j).2))
      (M.Exp (F64.abs (min_max M funcName).2))) (F64.fin 255)) (F64.fin 255) = true ∧
    F64.gt (F64.mul (F64.div (M.Exp (F64.abs (cellExtrema M funcName i j).2))
      (M.Exp (F64.abs (min_max M funcName).2))) (F64.fin 255)) (F64.fin 255) = false := by
  obtain ⟨lo, hi', hmm, hbound, -, -⟩ := min_max_char M funcName
  obtain ⟨a, b, hab, hcm⟩ := cellMax_attained M funcName i j hi hj
  have hle := cellMin_le_cellMax M funcName i j
  rw [cellExtrema_eq] at hred ⊢
  rw [hmm]
  simp only [F64.abs_fin, F64.gt_fin, decide_eq_true_eq] at hred
  have hcpos : 0 < cellMax M funcName i j := by
    by_contra hneg
    have h0 : cellMax M funcName i j ≤ 0 := not_lt.mp hneg
    rw [abs_of_nonpos h0, abs_of_nonpos (le_trans hle h0)] at hred
    linarith
  have hchi : cellMax M funcName i j ≤ hi' := hcm ▸ (hbound a b hab).2
  have hhipos : 0 < hi' := lt_of_lt_of_le hcpos hchi
  have he := hmono _ _ (le_of_lt hcpos) hchi
  have hd := hpos hi' (le_of_lt hhipos)
  have hq : M.exp (cellMax M funcName i j) / M.exp hi' * 255 ≤ 255 := by
    have h1 : M.exp (cellMax M funcName i j) / M.exp hi' ≤ 1 := (div_le_one hd).mpr he
    linarith
  simp only [F64.abs_fin, MathOps.Exp, abs_of_pos hcpos, abs_of_pos hhipos,
    F64.div_fin _ _ (ne_of_gt hd), F64.mul_fin, F64.gt_fin, F64.le_fin, decide_eq_true_eq,
    decide_eq_false_iff_not, not_lt]
  exact ⟨hcpos, hq, hq⟩

/-- C19. For every corner index pair `(i, j)` with `0 <= i, j <= cells`, the
horizontal screen coordinate `sx` that `corner(i, j)` returns is the same under
every selector (it does not depend on the elevation) and lies inside the
canvas: `0 <= sx <= width`.  `math.Cos(math.Pi / 6)` is taken in `[-1, 1]`. -/
theorem corner_sx_inside_canvas (M : MathOps K) (i j : Int)
    (hi0 : 0 ≤ i) (hi : i ≤ cells) (hj0 : 0 ≤ j) (hj : j ≤ cells)
    (hcos0 : -1 ≤ M.cos (M.pi / 6)) (hcos1 : M.cos (M.pi / 6) ≤ 1) :
    ∃ sx : K, (∀ funcName : String, (corner M funcName i j).1 = F64.fin sx) ∧
      0 ≤ sx ∧ sx ≤ (width : K) := by
  refine ⟨_, fun fn => corner_fst M fn i j, ?_⟩
  obtain ⟨hx0, hx1⟩ := coord_bounds (K := K) i hi0 hi
  obtain ⟨hy0, hy1⟩ := coord_bounds (K := K) j hj0 hj
  have hd0 : -30 ≤ coord K i - coord K j := by linarith
  have hd1 : coord K i - coord K j ≤ 30 := by linarith
  have hw : ((width : Int) : K) = 600 := by
    simp only [width]
    norm_num
  have hp : |(coord K i - coord K j) * M.cos (M.pi / 6)| ≤ 30 := by
    rw [abs_mul]
    have h1 : |coord K i - coord K j| ≤ 30 := abs_le.mpr ⟨hd0, hd1⟩
    have h2 : |M.cos (M.pi / 6)| ≤ 1 := abs_le.mpr ⟨hcos0, hcos1⟩
    calc |coord K i - coord K j| * |M.cos (M.pi / 6)|
        ≤ 30 * 1 := mul_le_mul h1 h2 (abs_nonneg _) (by norm_num)
      _ = 30 := mul_one 30
  obtain ⟨hp0, hp1⟩ := abs_le.mp hp
  rw [hw]
  constructor <;> linarith

/-- C20. Under selector "saddle", in exact arithmetic, `min_max` returns
`zmin = -225/289`, attained at the corner `(0, 50)` where `x = -15`, `y = 0`,
and `zmax = 225/625 = 9/25`, attained at the corner `(50, 0)` where `x = 0`,
`y = -15`. -/
theorem min_max_saddle_exact (M : MathOps K) :
    min_max M "saddle" = (F64.fin (-225 / 289), F64.fin (9 / 25)) ∧
    (9 / 25 : K) = 225 / 625 ∧
    getXyz M "saddle" 0 50 = (F64.fin (-15), F64.fin 0, F64.fin (-225 / 289)) ∧
    getXyz M "saddle" 50 0 = (F64.fin 0, F64.fin (-15), F64.fin (9 / 25)) := by
  refine ⟨min_max_saddle M, by norm_num, ?_, ?_⟩
  · refine Prod.ext ?_ (Prod.ext ?_ ?_)
    · rw [getXyz_x, coord_zero]
    · rw [getXyz_y, coord_fifty]
    · rw [getXyz_elev, elev_saddle, coord_zero, coord_fifty]
      norm_num
  · refine Prod.ext ?_ (Prod.ext ?_ ?_)
    · rw [getXyz_x, coord_fifty]
    · rw [getXyz_y, coord_zero]
    · rw [getXyz_elev, elev_saddle, coord_zero, coord_fifty]
      norm_num

/-- C18 on the rational test instance: selector "saddle", cell `(50, 0)`, whose
corner `(50, 0)` carries the surface maximum. -/
theorem red_clamp_never_triggers_witness :
    F64.gt (F64.abs (cellExtrema testOps "saddle" (50 : Nat) (0 : Nat)).2)
      (F64.abs (cellExtrema testOps "saddle" (50 : Nat) (0 : Nat)).1) = true ∧
    F64.gt (F64.mul (F64.div (testOps.Exp (F64.abs (cellExtrema testOps "saddle" (50 : Nat)
        (0 : Nat)).2)) (testOps.Exp (F64.abs (min_max testOps "saddle").2))) (F64.fin 255))
      (F64.fin 255) = false :=
  ⟨by decide!,
    (red_clamp_never_triggers testOps "saddle" 50 0 (by decide) (by decide) testOps_exp_pos
      testOps_exp_mono (by decide!)).2.2⟩

/-- C19 on the rational test instance: the corner `(100, 0)`, the rightmost
point of the surface. -/
theorem corner_sx_inside_canvas_witness :
    (-1 ≤ testOps.cos (testOps.pi / 6) ∧ testOps.cos (testOps.pi / 6) ≤ 1) ∧
    ∃ sx : ℚ, (∀ funcName : String, (corner testOps funcName 100 0).1 = F64.fin sx) ∧
      0 ≤ sx ∧ sx ≤ (width : ℚ) :=
  ⟨testOps_cos30,
    corner_sx_inside_canvas testOps 100 0 (by decide) (by decide) (by decide) (by decide)
      testOps_cos30.1 testOps_cos30.2⟩

/-- C14, as stated, fails: two requests for "/saddle" are served from the same
world, the first with no step of the other request in between, the second with
request `b` for "/eggbox" assigning `funcName` after the `min_max()` of `a`.
Both finish, under the same selector, and their documents differ as byte
strings. -/
theorem rerender_not_identical_counterexample :
    (World.run testOps [true, true, true, true, true]
        ⟨"", Goroutine.start "saddle", Goroutine.start "eggbox"⟩).a.selector = "saddle" ∧
    (World.run testOps [true, true, true, false, true, true]
        ⟨"", Goroutine.start "saddle", Goroutine.start "eggbox"⟩).a.selector = "saddle" ∧
    (World.run testOps [true, true, true, true, true]
        ⟨"", Goroutine.start "saddle", Goroutine.start "eggbox"⟩).a.pc = 5 ∧
    (World.run testOps [true, true, true, false, true, true]
        ⟨"", Goroutine.start "saddle", Goroutine.start "eggbox"⟩).a.pc = 5 ∧
    String.join (World.run testOps [true, true, true, true, true]
        ⟨"", Goroutine.start "saddle", Goroutine.start "eggbox"⟩).a.w ≠
      String.join (World.run testOps [true, true, true, false, true, true]
        ⟨"", Goroutine.start "saddle", Goroutine.start "eggbox"⟩).a.w := by
  refine ⟨rfl, rfl, rfl, rfl, ?_⟩
  rw [solo_body, interleaved_body, svg_eq, min_max_saddle,
    show cells * cells = 9999 + 1 from rfl]
  refine join_document_ne _ _ 9999 _ _ ("<polygon style='stroke: " ++ "#0000ba")
    ("<polygon style='stroke: " ++ "#0000ff")
    (";' points='" ++ (spec_points testOps [corner testOps "saddle" (0 + 1) 0,
      corner testOps "saddle" 0 0, corner testOps "saddle" 0 (0 + 1),
      corner testOps "saddle" (0 + 1) (0 + 1)] ++ "'/>\n"))
    (";' points='" ++ (spec_points testOps [corner testOps "eggbox" (0 + 1) 0,
      corner testOps "eggbox" 0 0, corner testOps "eggbox" 0 (0 + 1),
      corner testOps "eggbox" (0 + 1) (0 + 1)] ++ "'/>\n")) ?_ ?_ (by decide) (by decide)
  · simp only [Nat.zero_div, Nat.zero_mod, Nat.cast_zero]
    rw [spec_polygon_stroke, color_saddle_origin_cell]
  · simp only [Nat.zero_div, Nat.zero_mod, Nat.cast_zero]
    rw [spec_polygon_stroke, color_eggbox_origin_cell]

/-- C14, amended. Rendering is deterministic as long as no other request
assigns `funcName` while a render is in progress: for two requests with the
same selector, each started when the other request of its world is past its
assignment and each given at least five turns, under any schedules both
finish and their documents are the same writes and the same bytes. -/
theorem undisturbed_renders_identical [FloorRing K] (M : MathOps K)
    (schedule1 schedule2 : List Bool) (s1 s2 : World K)
    (ha1 : s1.a.pc = 0) (hw1 : s1.a.w = []) (hb1 : s1.b.pc ≠ 0)
    (ha2 : s2.a.pc = 0) (hw2 : s2.a.w = []) (hb2 : s2.b.pc ≠ 0)
    (hsel : s1.a.selector = s2.a.selector)
    (h1 : 5 ≤ schedule1.count true) (h2 : 5 ≤ schedule2.count true) :
    (World.run M schedule1 s1).a.pc = 5 ∧ (World.run M schedule2 s2).a.pc = 5 ∧
    (World.run M schedule1 s1).a.w = (World.run M schedule2 s2).a.w ∧
    String.join (World.run M schedule1 s1).a.w = String.join (World.run M schedule2 s2).a.w := by
  have body : ∀ (schedule : List Bool) (s : World K), s.a.pc = 0 → s.a.w = [] → s.b.pc ≠ 0 →
      5 ≤ schedule.count true →
      (World.run M schedule s).a.pc = 5 ∧ (World.run M schedule s).a.w = svg M s.a.selector := by
    intro schedule s ha hw hb hc
    have hpc := run_pc M schedule s (by omega)
    rw [ha, Nat.zero_add, min_eq_left hc] at hpc
    obtain ⟨-, -, hA⟩ :=
      undisturbed_run M s.a.selector schedule s ⟨hb, rfl, Or.inl ⟨ha, hw⟩⟩
    refine ⟨hpc, ?_⟩
    rcases hA with h | h | h | h | h | h
    · omega
    · omega
    · omega
    · omega
    · omega
    · exact h.2
  obtain ⟨p1, b1⟩ := body schedule1 s1 ha1 hw1 hb1 h1
  obtain ⟨p2, b2⟩ := body schedule2 s2 ha2 hw2 hb2 h2
  have hw : (World.run M schedule1 s1).a.w = (World.run M schedule2 s2).a.w := by
    rw [b1, b2, hsel]
  exact ⟨p1, p2, hw, by rw [hw]⟩

/-- C14 amended, on the rational test instance: two requests for "/saddle",
the first served alone after a finished "/eggbox" request, the second sharing
its turns with a "/" request that has already written its header. -/
theorem undisturbed_renders_identical_witness :
    String.join (World.run testOps [true, true, true, true, true]
        ⟨"eggbox", Goroutine.start "saddle",
          ⟨"eggbox", 5, (F64.fin 0, F64.fin 0), []⟩⟩).a.w =
      String.join (World.run testOps [true, false, true, true, false, true, true, false]
        ⟨"f", Goroutine.start "saddle",
          ⟨"f", 2, (F64.fin 0, F64.fin 0), [svgHeader]⟩⟩).a.w :=
  (undisturbed_renders_identical testOps [true, true, true, true, true]
    [true, false, true, true, false, true, true, false]
    ⟨"eggbox", Goroutine.start "saddle", ⟨"eggbox", 5, (F64.fin 0, F64.fin 0), []⟩⟩
    ⟨"f", Goroutine.start "saddle", ⟨"f", 2, (F64.fin 0, F64.fin 0), [svgHeader]⟩⟩
    rfl rfl (by decide) rfl rfl (by decide) rfl (by decide) (by decide)).2.2.2

/-- C15, as stated, fails: request `a` for "/saddle" has run `min_max()` when
request `b` for "/eggbox" assigns `funcName`; `a` then finishes, and its body
is not the document of the selector "saddle". -/
theorem selector_not_isolated_counterexample :
    (World.run testOps [true, true, true, false, true, true]
        ⟨"", Goroutine.start "saddle", Goroutine.start "eggbox"⟩).a.pc = 5 ∧
    (World.run testOps [true, true, true, false, true, true]
        ⟨"", Goroutine.start "saddle", Goroutine.start "eggbox"⟩).a.w ≠ svg testOps "saddle" := by
  refine ⟨rfl, fun heq => ?_⟩
  rw [interleaved_body, svg_eq] at heq
  have h := congrArg (fun l : List String => l[1 + 5050]?) heq
  have hk : 5050 < cells * cells := by decide
  simp only [document_getElem _ _ _ _ 5050 hk, min_max_saddle, Option.some.injEq] at h
  exact polygon_eggbox_ne_saddle h

/-- C15, amended. The selector is held in the package-level variable
`funcName`: each handler assigns it and `svg` reads it.  When no other request
assigns `funcName` after request `a` has started (request `b` is past its
assignment), then under every schedule `a` has executed
`min(5, number of its turns)` statements, and once it has executed all five
its body is the document `svg` of its own selector. -/
theorem selector_isolated_without_assignment [FloorRing K] (M : MathOps K)
    (schedule : List Bool) (s : World K)
    (ha : s.a.pc = 0) (hw : s.a.w = []) (hb : s.b.pc ≠ 0) :
    (World.run M schedule s).a.pc = min 5 (schedule.count true) ∧
    ((World.run M schedule s).a.pc = 5 →
      (World.run M schedule s).a.w = svg M s.a.selector) := by
  have hpc := run_pc M schedule s (by omega)
  rw [ha, Nat.zero_add] at hpc
  refine ⟨hpc, fun h5 => ?_⟩
  obtain ⟨-, -, hA⟩ :=
    undisturbed_run M s.a.selector schedule s ⟨hb, rfl, Or.inl ⟨ha, hw⟩⟩
  rcases hA with h | h | h | h | h | h
  · omega
  · omega
  · omega
  · omega
  · omega
  · exact h.2

/-- C15 amended, on the rational test instance: request `b` for "/eggbox" has
finished, request `a` for "/saddle" runs its five statements. -/
theorem selector_isolated_without_assignment_witness :
    (World.run testOps [true, true, true, true, true]
        ⟨"eggbox", Goroutine.start "saddle",
          ⟨"eggbox", 5, (F64.fin 0, F64.fin 0), []⟩⟩).a.pc = 5 ∧
    (World.run testOps [true, true, true, true, true]
        ⟨"eggbox", Goroutine.start "saddle",
          ⟨"eggbox", 5, (F64.fin 0, F64.fin 0), []⟩⟩).a.w = svg testOps "saddle" :=
  ⟨rfl,
    (selector_isolated_without_assignment testOps [true, true, true, true, true]
      ⟨"eggbox", Goroutine.start "saddle", ⟨"eggbox", 5, (F64.fin 0, F64.fin 0), []⟩⟩
      rfl rfl (by decide)).2 rfl⟩

end Claims

end Surface
